import Mathlib

/-!
Verification development for the moviechatAI recommender core.

The Python modules `src/core/ai_intent.py` and `src/core/recommender.py` are
shallowly embedded below.  Python dictionaries become structures with optional
fields, machine floats become exact rationals, the external HTTP collaborators
(TMDB catalog, Watchmode availability, the Gemini intent oracle) become an
explicit environment of functions returning `Except Unit`, where `.error ()`
stands for a raised request exception, and module-level memoization dicts
become an explicit `Caches` state threaded through the pipeline.  Every
external call and every `time.sleep` is recorded in an event trace so that
call-count and rate-limit properties can be stated.

Conventions:
* `Option` fields model `dict.get` results (`none` = key absent / `None`).
* Python truthiness of strings, numbers and lists is modelled by the
  `tstr` / `tnat` helpers (`None`, `""`, `0` and `[]` are falsy).
* Regular-expression searches from the source are implemented as
  position-by-position scanners on `List Char`, faithful to the concrete
  patterns in the source for newline-free inputs (`.` and `$` subtleties of
  texts containing a line break are not modelled).
-/

attribute [local semireducible] Rat.add Rat.mul Rat.sub Rat.inv

/-! ## Basic character and string helpers -/

/-- ASCII lower-casing of one character, as `str.lower` acts on ASCII text. -/
def lcChar (c : Char) : Char :=
  if 'A' ≤ c ∧ c ≤ 'Z' then Char.ofNat (c.toNat + 32) else c

/-- Whitespace characters recognised by `str.strip`, `str.split` and `\s`. -/
def isWs (c : Char) : Bool :=
  c = ' ' ∨ c = '\t' ∨ c = '\n' ∨ c = '\r' ∨ c = '\x0b' ∨ c = '\x0c'

/-- Word characters for the `\b` boundary of the `re` module (`[A-Za-z0-9_]`). -/
def isWordChar (c : Char) : Bool :=
  c.isAlpha ∨ c.isDigit ∨ c = '_'

/-- Whether the (optional) character just before the current scan position is
a word character; `none` is the start of the string, a non-word position. -/
def isWordOpt : Option Char → Bool
  | none => false
  | some c => isWordChar c

/-- Whether the head of the remaining text is a word character (no head = end
of text = a word boundary). -/
def headIsWord : List Char → Bool
  | [] => false
  | c :: _ => isWordChar c

/-- Python `str.strip()`: remove leading and trailing whitespace. -/
def stripChars (s : List Char) : List Char :=
  ((s.dropWhile isWs).reverse.dropWhile isWs).reverse

/-- Python `str.lower()` on a character list. -/
def lcList (s : List Char) : List Char := s.map lcChar

/-- Match a literal pattern at the head of the text, returning the rest. -/
def stripPfx : List Char → List Char → Option (List Char)
  | [], s => some s
  | _ :: _, [] => none
  | p :: ps, c :: cs => if c = p then stripPfx ps cs else none

/-- Does the text start with the pattern? -/
def startsWithL (s pat : List Char) : Bool :=
  (stripPfx pat s).isSome

/-- Python substring containment `pat in s`. -/
def containsSub : List Char → List Char → Bool
  | [], pat => startsWithL [] pat
  | c :: cs, pat => startsWithL (c :: cs) pat || containsSub cs pat

/-- One-or-more whitespace (`\s+`), maximal munch; fails on no whitespace. -/
def ws1 : List Char → Option (List Char)
  | [] => none
  | c :: cs => if isWs c then some (cs.dropWhile isWs) else none

/-- Whole-word search `re.search(r"\bpat\b", s)` for a pattern that starts and
ends with a word character, scanning left to right; `prev` is the character
before the current position. -/
def wordSearch (pat : List Char) : Option Char → List Char → Bool
  | _, [] => false
  | prev, c :: cs =>
    (!isWordOpt prev &&
      (match stripPfx pat (c :: cs) with
       | some rest => !headIsWord rest
       | none => false)) ||
    wordSearch pat (some c) cs

/-- Number of whitespace-separated tokens, Python `len(s.split())`; the flag
records whether the previous character was inside a token. -/
def splitCount : List Char → Bool → Nat
  | [], _ => 0
  | c :: cs, inTok =>
    if isWs c then splitCount cs false
    else (if inTok then 0 else 1) + splitCount cs true

/-- Fuel-driven worker for `pyReplace`; fuel at least the text length makes it
total and keeps the recursion structural so concrete runs reduce in the
kernel. -/
def pyReplaceGo (pat : List Char) : Nat → List Char → List Char
  | _, [] => []
  | 0, s => s
  | fuel + 1, c :: cs =>
    match stripPfx pat (c :: cs) with
    | some rest => pyReplaceGo pat fuel rest
    | none => c :: pyReplaceGo pat fuel cs

/-- Python `s.replace(pat, "")` for a non-empty literal pattern: delete all
non-overlapping occurrences, scanning left to right. -/
def pyReplace (s pat : List Char) : List Char :=
  pyReplaceGo pat s.length s

/-- Maximal run of decimal digits with its value (`\d+`, greedy). -/
def digitsTake : List Char → Nat → Nat × List Char
  | [], acc => (acc, [])
  | c :: cs, acc =>
    if c.isDigit then digitsTake cs (acc * 10 + (c.toNat - 48)) else (acc, c :: cs)

/-- Parse one-or-more digits (`(\d+)`); fails if the head is not a digit. -/
def parseDigits : List Char → Option (Nat × List Char)
  | [] => none
  | c :: cs => if c.isDigit then some (digitsTake (c :: cs) 0) else none

/-! ## Python truthiness and rounding -/

/-- Truthiness of an optional string: `None` and `""` are falsy. -/
def tstr : Option String → Bool
  | none => false
  | some s => s ≠ ""

/-- Truthiness of an optional number: `None` and `0` are falsy. -/
def tnat : Option Nat → Bool
  | none => false
  | some n => n ≠ 0

/-- Python `a or b` on optional strings. -/
def orS (a b : Option String) : Option String :=
  if tstr a then a else b

/-- Python `a or b` on optional naturals. -/
def orN (a b : Option Nat) : Option Nat :=
  if tnat a then a else b

/-- Python `a or d` where `d` is a plain string default. -/
def getS (a : Option String) (d : String) : String :=
  if tstr a then a.getD "" else d

/-- Keep only the truthy members of a list of optional identifiers, Python
`[k for k in ks if k]`. -/
def truthyNats (ks : List (Option Nat)) : List Nat :=
  ks.filterMap fun k => match k with
    | none => none
    | some n => if n = 0 then none else some n

/-- Python 3 `round` to an integer: round half to even. -/
def pyRound (q : ℚ) : ℤ :=
  let f := ⌊q⌋
  let frac := q - (f : ℚ)
  if frac < 1 / 2 then f
  else if 1 / 2 < frac then f + 1
  else if f % 2 = 0 then f else f + 1

/-- First-occurrence de-duplication, Python `list(dict.fromkeys(l))`. -/
def dedupF {α : Type} [DecidableEq α] : List α → List α :=
  go []
where
  go {α : Type} [DecidableEq α] (seen : List α) : List α → List α
    | [] => []
    | x :: xs => if x ∈ seen then go seen xs else x :: go (x :: seen) xs

/-! ## `ai_intent.py`: lexical intent extraction -/

/-- The heuristic `Intent` dataclass of `ai_intent.py`. -/
structure Intent where
  content_type : Option String := none
  language : Option String := none
  genres : List Nat := []
  seed_title : Option String := none
  year_from : Option Nat := none
  year_to : Option Nat := none
  limit : Option Nat := none
deriving DecidableEq, Inhabited

/-- The `TMDB_GENRES` name-to-id table, in source order. -/
def TMDB_GENRES : List (String × Nat) :=
  [("action", 28), ("adventure", 12), ("animation", 16), ("anime", 16),
   ("comedy", 35), ("crime", 80), ("documentary", 99), ("drama", 18),
   ("family", 10751), ("fantasy", 14), ("history", 36), ("horror", 27),
   ("music", 10402), ("mystery", 9648), ("romance", 10749), ("sci fi", 878),
   ("sci-fi", 878), ("thriller", 53), ("war", 10752)]

/-- The `LANG_HINTS` ordered keyword lists. -/
def LANG_HINTS : List (List String × String) :=
  [(["hindi", "bollywood", "india", "indian"], "hi"),
   (["english", "hollywood"], "en"),
   (["korean", "k-drama", "kdrama"], "ko"),
   (["japanese", "jp", "anime"], "ja"),
   (["spanish"], "es"),
   (["french"], "fr"),
   (["tamil"], "ta"),
   (["telugu"], "te")]

/-- The `CONTENT_HINTS` entries, in dict insertion order (movie first). -/
def CONTENT_HINTS : List (String × List String) :=
  [("movie", ["movie", "movies", "film", "films"]),
   ("series", ["series", "tv", "show", "shows", "web series", "episode", "episodes"])]

/-- Shape test for a four-digit year `(19\d{2}|20\d{2})`. -/
def yearShape (c1 c2 c3 c4 : Char) : Bool :=
  ((c1 = '1' ∧ c2 = '9') ∨ (c1 = '2' ∧ c2 = '0')) ∧ c3.isDigit ∧ c4.isDigit

/-- Numeric value of a four-digit year. -/
def yearVal (c1 c2 c3 c4 : Char) : Nat :=
  ((c1.toNat - 48) * 10 + (c2.toNat - 48)) * 100 + (c3.toNat - 48) * 10 + (c4.toNat - 48)

/-- Parse a four-digit year `(19\d{2}|20\d{2})`, returning value and rest. -/
def parseYear : List Char → Option (Nat × List Char)
  | c1 :: c2 :: c3 :: c4 :: rest =>
    if yearShape c1 c2 c3 c4 then some (yearVal c1 c2 c3 c4, rest) else none
  | _ => none

/-- Try `\bbetween\s+(Y)\s+(and|to)\s+(Y)\b` at the current position. -/
def tryBetweenAt (prev : Option Char) (s : List Char) : Option (Nat × Nat) := do
  guard (!isWordOpt prev)
  let s1 ← stripPfx ("between".data) s
  let s2 ← ws1 s1
  let (y1, s3) ← parseYear s2
  let s4 ← ws1 s3
  let s5 ← (stripPfx ("and".data) s4) <|> (stripPfx ("to".data) s4)
  let s6 ← ws1 s5
  let (y2, s7) ← parseYear s6
  guard (!headIsWord s7)
  pure (y1, y2)

/-- Leftmost match of the `between` pattern. -/
def searchBetween : Option Char → List Char → Option (Nat × Nat)
  | _, [] => none
  | prev, c :: cs =>
    match tryBetweenAt prev (c :: cs) with
    | some r => some r
    | none => searchBetween (some c) cs

/-- Try `\b(after|since)\s+(Y)\b` at the current position; the Bool is true
when the matched word was `after`. -/
def tryAfterSinceAt (prev : Option Char) (s : List Char) : Option (Bool × Nat) := do
  guard (!isWordOpt prev)
  let (isAfter, s1) ←
    match stripPfx ("after".data) s with
    | some r => some (true, r)
    | none =>
      match stripPfx ("since".data) s with
      | some r => some (false, r)
      | none => none
  let s2 ← ws1 s1
  let (y, s3) ← parseYear s2
  guard (!headIsWord s3)
  pure (isAfter, y)

/-- Leftmost match of the `after`/`since` pattern. -/
def searchAfterSince : Option Char → List Char → Option (Bool × Nat)
  | _, [] => none
  | prev, c :: cs =>
    match tryAfterSinceAt prev (c :: cs) with
    | some r => some r
    | none => searchAfterSince (some c) cs

/-- Try `\b(before|until)\s+(Y)\b` at the current position; the Bool is true
when the matched word was `before`. -/
def tryBeforeUntilAt (prev : Option Char) (s : List Char) : Option (Bool × Nat) := do
  guard (!isWordOpt prev)
  let (isBefore, s1) ←
    match stripPfx ("before".data) s with
    | some r => some (true, r)
    | none =>
      match stripPfx ("until".data) s with
      | some r => some (false, r)
      | none => none
  let s2 ← ws1 s1
  let (y, s3) ← parseYear s2
  guard (!headIsWord s3)
  pure (isBefore, y)

/-- Leftmost match of the `before`/`until` pattern. -/
def searchBeforeUntil : Option Char → List Char → Option (Bool × Nat)
  | _, [] => none
  | prev, c :: cs =>
    match tryBeforeUntilAt prev (c :: cs) with
    | some r => some r
    | none => searchBeforeUntil (some c) cs

/-- Fuel-driven worker for `findYears`; fuel at least the text length makes
the recursion structural (a match consumes four characters at once). -/
def findYearsGo : Nat → Option Char → List Char → List Nat
  | 0, _, _ => []
  | _, _, [] => []
  | fuel + 1, prev, c1 :: cs1 =>
    if !isWordOpt prev then
      match cs1 with
      | c2 :: c3 :: c4 :: rest =>
        if yearShape c1 c2 c3 c4 && !headIsWord rest then
          yearVal c1 c2 c3 c4 :: findYearsGo fuel (some c4) rest
        else findYearsGo fuel (some c1) cs1
      | _ => findYearsGo fuel (some c1) cs1
    else findYearsGo fuel (some c1) cs1

/-- All bare four-digit years `re.findall(r"\b(19\d{2}|20\d{2})\b", t)`,
non-overlapping, left to right. -/
def findYears (prev : Option Char) (s : List Char) : List Nat :=
  findYearsGo s.length prev s

/-- The `_extract_years` helper: year-range extraction from free text. -/
def extract_years (text : String) : Option Nat × Option Nat :=
  let t := lcList text.data
  let years := findYears none t
  match searchBetween none t with
  | some (a, b) => (some (min a b), some (max a b))
  | none =>
    match searchAfterSince none t with
    | some (isAfter, y) => (some (if isAfter then y + 1 else y), none)
    | none =>
      match searchBeforeUntil none t with
      | some (isBefore, y) => (none, some (if isBefore then y - 1 else y))
      | none =>
        match years with
        | [y] => (some y, some y)
        | _ => (none, none)

/-- Genre ids whose names occur as whole words, in table order, followed by
the `"thrill"` special case (thriller id 53 when not already present). -/
def collectGenres (t : List Char) : List Nat :=
  let gs := (TMDB_GENRES.filter fun p => wordSearch p.1.data none t).map (·.2)
  if containsSub t ("thrill".data) ∧ 53 ∉ gs then gs ++ [53] else gs

/-- Content-type hint: first category whose keyword list has a substring
match, Python dict-iteration order. -/
def contentHint (t : List Char) : Option String :=
  (CONTENT_HINTS.find? fun p => p.2.any fun k => containsSub t k.data).map (·.1)

/-- Language hint: first entry of `LANG_HINTS` with a substring match. -/
def langHint (t : List Char) : Option String :=
  (LANG_HINTS.find? fun p => p.1.any fun k => containsSub t k.data).map (·.2)

/-- Try `(like|similar to)\s+(.+)$` at the current position, returning the
captured remainder. -/
def trySeedAt (s : List Char) : Option (List Char) := do
  let s1 ← (stripPfx ("like".data) s) <|> (stripPfx ("similar to".data) s)
  let s2 ← ws1 s1
  guard (s2 ≠ [])
  pure s2

/-- Leftmost match of the seed-title pattern. -/
def searchSeed : List Char → Option (List Char)
  | [] => none
  | c :: cs =>
    match trySeedAt (c :: cs) with
    | some r => some r
    | none => searchSeed cs

/-- Truncate at the first whole-word `on` or `from`, the effect of
`re.sub(r"\b(on|from)\b.*$", "", seed)`. -/
def truncOnFrom : Option Char → List Char → List Char
  | _, [] => []
  | prev, c :: cs =>
    if !isWordOpt prev &&
        ((match stripPfx ("on".data) (c :: cs) with
          | some rest => !headIsWord rest
          | none => false) ||
         (match stripPfx ("from".data) (c :: cs) with
          | some rest => !headIsWord rest
          | none => false)) then []
    else c :: truncOnFrom (some c) cs

/-- Seed title from `like X` / `similar to X`, with any trailing
`on/from ...` clause stripped; empty results give no seed. -/
def seedTitle (t : List Char) : Option String :=
  match searchSeed t with
  | none => none
  | some rest =>
    let seed := stripChars (truncOnFrom none (stripChars rest))
    if seed = [] then none else some (String.mk seed)

/-- Try `\btop\s+(\d+)\b` at the current position. -/
def tryTopAt (prev : Option Char) (s : List Char) : Option Nat := do
  guard (!isWordOpt prev)
  let s1 ← stripPfx ("top".data) s
  let s2 ← ws1 s1
  let (n, s3) ← parseDigits s2
  guard (!headIsWord s3)
  pure n

/-- Leftmost match of the `top N` pattern. -/
def searchTop : Option Char → List Char → Option Nat
  | _, [] => none
  | prev, c :: cs =>
    match tryTopAt prev (c :: cs) with
    | some r => some r
    | none => searchTop (some c) cs

/-- Try `\b(\d+)\s+(recommendations|recs|movies|shows)\b` at the current
position, with regex-style backtracking over the alternatives. -/
def tryCountAt (prev : Option Char) (s : List Char) : Option Nat := do
  guard (!isWordOpt prev)
  let (n, s1) ← parseDigits s
  let s2 ← ws1 s1
  let ok := (["recommendations", "recs", "movies", "shows"] : List String).any fun w =>
    match stripPfx w.data s2 with
    | some rest => !headIsWord rest
    | none => false
  guard ok
  pure n

/-- Leftmost match of the `N recommendations` pattern. -/
def searchCount : Option Char → List Char → Option Nat
  | _, [] => none
  | prev, c :: cs =>
    match tryCountAt prev (c :: cs) with
    | some r => some r
    | none => searchCount (some c) cs

/-- The `parse_intent` heuristic extractor of `ai_intent.py`. -/
def parse_intent (text : String) : Intent :=
  let t := lcList (stripChars text.data)
  let limit :=
    match searchTop none t with
    | some n => some n
    | none => searchCount none t
  let ys := extract_years (String.mk t)
  { content_type := contentHint t
    language := langHint t
    genres := dedupF (collectGenres t)
    seed_title := seedTitle t
    year_from := ys.1
    year_to := ys.2
    limit := limit }

/-! ## `recommender.py`: data model -/

/-- A raw catalog item (one TMDB result dict); `none` models a missing key.
Credit entries reuse the same shape with `job` for crew rows. -/
structure Cand where
  id : Option Nat := none
  title : Option String := none
  name : Option String := none
  overview : Option String := none
  vote_average : Option ℚ := none
  popularity : Option ℚ := none
  original_language : Option String := none
  release_date : Option String := none
  first_air_date : Option String := none
  genre_ids : Option (List Nat) := none
  poster_path : Option String := none
  backdrop_path : Option String := none
  media_type : Option String := none
  job : Option String := none
deriving DecidableEq, Inhabited

/-- A person-search result (`results[0].get("id")` is all that is read). -/
structure Person where
  id : Option Nat := none
deriving DecidableEq, Inhabited

/-- A combined-credits payload: `cast` and `crew` lists. -/
structure Credits where
  cast : List Cand := []
  crew : List Cand := []
deriving DecidableEq, Inhabited

/-- A keyword-search result (`results[0].get("id")` is all that is read). -/
structure Kw where
  id : Option Nat := none
deriving DecidableEq, Inhabited

/-- A Watchmode title-search result (`title_results[0].get("id")`). -/
structure WmRes where
  id : Option Nat := none
deriving DecidableEq, Inhabited

/-- A Watchmode source entry (`s.get("name") or s.get("source")`). -/
structure Source where
  name : Option String := none
  source : Option String := none
deriving DecidableEq, Inhabited

/-- Arguments of a `discover` call (movie or tv), as built by the router. -/
structure DiscoverQ where
  genres : Option (List Nat) := none
  page : Nat := 1
  language : Option String := none
  year_from : Option Nat := none
  year_to : Option Nat := none
  with_keywords : Option (List Nat) := none
deriving DecidableEq, Inhabited

/-- The best-effort Gemini hint dict (`gemini_parse_intent` result); any key
may be absent since the JSON is not validated client-side. -/
structure GHint where
  content_type : Option String := none
  language : Option String := none
  title_query : Option String := none
  person_name : Option String := none
  person_role : Option String := none
  genres : Option (List String) := none
  keywords : Option (List String) := none
  year_from : Option Nat := none
  year_to : Option Nat := none
deriving DecidableEq, Inhabited

/-- One event of the observable behaviour of a request: an external call of a
given kind, or the fixed rate-limit sleep. -/
inductive Ev where
  | personSearch
  | personCredits
  | multiSearch
  | similarCall
  | keywordSearch
  | discoverMovieCall
  | discoverTvCall
  | searchMovieCall
  | searchTvCall
  | trailerAttempt
  | trailerFetch
  | availAttempt
  | wmSearchCall
  | wmSourcesCall
  | sleep
deriving DecidableEq, Inhabited

/-- The three module-level memoization dicts of `recommender.py`, as
association lists (`_WATCHMODE_ID_CACHE`, `_WATCHMODE_SOURCES_CACHE`,
`_TRAILER_CACHE`). -/
structure Caches where
  wmId : List (String × Option Nat) := []
  wmSources : List ((String × String) × List Source) := []
  trailer : List ((Nat × String) × Option String) := []
deriving DecidableEq, Inhabited

/-- The external collaborators of the core, abstracted as pure functions; a
`.error ()` result models a raised `requests` exception (credentials are
assumed present, per the configuration-error taxonomy of the spec).
`wm_search` stands for `watchmode_search(...)["title_results"]`. -/
structure Env where
  gemini : String → Except Unit (Option GHint)
  search_person : String → Except Unit (List Person)
  person_credits : Nat → Except Unit Credits
  search_multi : String → Except Unit (List Cand)
  similar : Nat → String → Nat → Except Unit (List Cand)
  search_keyword : String → Except Unit (List Kw)
  discover_movie : DiscoverQ → Except Unit (List Cand)
  discover_tv : DiscoverQ → Except Unit (List Cand)
  search_movie : String → Nat → Except Unit (List Cand)
  search_tv : String → Nat → Except Unit (List Cand)
  get_trailer_url : Nat → String → Except Unit (Option String)
  wm_search : String → Except Unit (List WmRes)
  wm_sources : Nat → String → Except Unit (List Source)

/-- One output item of `recommend_ai` (the dict appended to `items`). -/
structure Item where
  type : String
  title : String
  overview : Option String
  rating : Option ℚ
  popularity : Option ℚ
  language : Option String
  release_date : Option String
  first_air_date : Option String
  tmdb_id : Nat
  poster_url : Option String
  backdrop_url : Option String
  trailer_url : Option String
  available_on : String
  score : ℤ
deriving DecidableEq, Inhabited

/-- The echoed `intent` sub-dict of the response. -/
structure IntentEcho where
  content_type : String
  language : Option String
  genres : List Nat
  year_from : Option Nat
  year_to : Option Nat
  title_query : Option String
  person_name : Option String
  person_role : Option String
  keywords : List String
  phase3_gemini_enabled : Bool
deriving DecidableEq, Inhabited

/-- The full `recommend_ai` response envelope. -/
structure Resp where
  items : List Item
  page : Nat
  page_size : Nat
  intent : IntentEcho
deriving DecidableEq, Inhabited

/-- The canonical merged intent built by `recommend_ai` before routing. -/
structure Merged where
  ct : String
  lang : Option String
  year_from : Option Nat
  year_to : Option Nat
  genre_ids : List Nat
  title_query : Option String
  person_name : Option String
  person_role : Option String
  keyword_terms : List String
deriving DecidableEq, Inhabited

/-! ## `recommender.py`: pure helpers -/

/-- Budget constant `AVAILABILITY_LOOKUPS_PER_REQUEST`. -/
def AVAILABILITY_LOOKUPS_PER_REQUEST : Nat := 5

/-- Budget constant `TRAILER_LOOKUPS_PER_REQUEST`. -/
def TRAILER_LOOKUPS_PER_REQUEST : Nat := 4

/-- The `DEFAULT_REGION` fallback value (`os.getenv` default). -/
def DEFAULT_REGION : String := "US"

/-- Python `(s).strip().lower()` on a string. -/
def stripLower (s : String) : String :=
  String.mk (lcList (stripChars s.data))

/-- The `_normalize_content_type` helper: canonicalise known synonyms but
pass any other non-empty value through unchanged. -/
def normalize_content_type (ct : String) : String :=
  let c := stripLower ct
  if c = "movie" ∨ c = "movies" then "movie"
  else if c = "series" ∨ c = "tv" ∨ c = "show" ∨ c = "shows" then "series"
  else if c = "" then "movie" else c

/-- The `_rating` helper: `float(item.get("vote_average") or 0.0)`. -/
def ratingQ (item : Cand) : ℚ :=
  item.vote_average.getD 0

/-- The `_popularity` helper: `float(item.get("popularity") or 0.0)`. -/
def popQ (item : Cand) : ℚ :=
  item.popularity.getD 0

/-- The `_score_100` composite score: rating, genre overlap, popularity,
language match and the similarity bonus, capped at 1 and scaled to 0..100. -/
def score_100 (item : Cand) (intent_genres : List Nat) (intent_lang : Option String)
    (similar_bonus : ℚ) : ℤ :=
  let rating := ratingQ item
  let pop := popQ item
  let item_genres := item.genre_ids.getD []
  let overlap : ℚ :=
    if intent_genres ≠ [] then
      ((item_genres.toFinset ∩ intent_genres.toFinset).card : ℚ) /
        (max intent_genres.toFinset.card 1 : ℚ)
    else 35 / 100
  let lang_match : ℚ :=
    if tstr intent_lang ∧ item.original_language = intent_lang then 1 else 0
  let pop_norm := min (pop / 200) 1
  let base := 50 / 100 * (rating / 10) + 25 / 100 * overlap +
    20 / 100 * pop_norm + 5 / 100 * lang_match
  pyRound (min (base + similar_bonus) 1 * 100)

/-- The `_looks_like_person_query` heuristic. -/
def looks_like_person_query (text : String) : Bool :=
  let t := lcList text.data
  (containsSub t (" movies".data) || containsSub t (" films".data) ||
   containsSub t (" film".data) || containsSub t (" movies".data)) &&
  (containsSub t ("actor".data) || containsSub t ("director".data) ||
   containsSub t ("starring".data) || containsSub t ("by ".data) ||
   splitCount t false ≤ 4)

/-- The `_dedupe_by_id` worker; `seen` is the set of already kept ids. -/
def dedupeGo (seen : List Nat) : List Cand → List Cand
  | [] => []
  | x :: xs =>
    match x.id with
    | none => dedupeGo seen xs
    | some i =>
      if i = 0 ∨ i ∈ seen then dedupeGo seen xs
      else x :: dedupeGo (i :: seen) xs

/-- The `_dedupe_by_id` helper: keep the first occurrence of each truthy id,
skipping items whose id is missing or falsy. -/
def dedupe_by_id (items : List Cand) : List Cand :=
  dedupeGo [] items

/-- The truthy identifier of a candidate (`None` and `0` count as absent). -/
def tid (c : Cand) : Option Nat :=
  match c.id with
  | none => none
  | some i => if i = 0 then none else some i

/-- Specification-side reading of the deduplicator, following the spec words:
the first candidate of each identifier is kept and all later candidates with
the same identifier are filtered away, order otherwise preserved. -/
def keepFirstSpec : List Cand → List Cand
  | [] => []
  | c :: cs =>
    match tid c with
    | none => keepFirstSpec cs
    | some i => c :: keepFirstSpec (cs.filter fun d => tid d ≠ some i)
termination_by l => l.length
decreasing_by
  · simp only [List.length_cons]
    exact Nat.lt_succ_self _
  · simp only [List.length_cons]
    exact Nat.lt_succ_of_le (List.length_filter_le _ _)

/-- The `tmdb_poster_url` wrapper (pure URL formatting). -/
def tmdb_poster_url (poster_path : Option String) (size : String) : Option String :=
  if tstr poster_path then
    some ("https://image.tmdb.org/t/p/" ++ size ++ poster_path.getD "")
  else none

/-- The `tmdb_backdrop_url` wrapper (pure URL formatting). -/
def tmdb_backdrop_url (backdrop_path : Option String) (size : String) : Option String :=
  if tstr backdrop_path then
    some ("https://image.tmdb.org/t/p/" ++ size ++ backdrop_path.getD "")
  else none

/-- Stable insertion into a list ordered by `le` (new element goes before the
first entry it compares `le` to, hence after earlier equal keys). -/
def insertLe {α : Type} (le : α → α → Bool) (x : α) : List α → List α
  | [] => [x]
  | y :: ys => if le x y then x :: y :: ys else y :: insertLe le x ys

/-- Stable sort by `le` (the contract of Python `list.sort`); with
`le a b := key b ≤ key a` this is a stable descending sort by `key`, the
meaning of `sort(key=..., reverse=True)`. -/
def sortByLe {α : Type} (le : α → α → Bool) : List α → List α
  | [] => []
  | x :: xs => insertLe le x (sortByLe le xs)

/-- Sort key of the person-route pool:
`(x.get("vote_average") or 0) * 10 + (x.get("popularity") or 0)`. -/
def creditKey (x : Cand) : ℚ :=
  (x.vote_average.getD 0) * 10 + (x.popularity.getD 0)

/-! ## `recommender.py`: cached enrichment lookups -/

/-- The `_trailer_cached` helper: memoized trailer lookup whose external call
is wrapped in `try/except` (a failure degrades to `None`). -/
def trailer_cached (env : Env) (ca : Caches) (tmdbId : Nat) (media_type : String) :
    Option String × List Ev × Caches :=
  match List.lookup (tmdbId, media_type) ca.trailer with
  | some v => (v, [], ca)
  | none =>
    let url := match env.get_trailer_url tmdbId media_type with
      | .ok u => u
      | .error _ => none
    (url, [Ev.trailerFetch], { ca with trailer := ((tmdbId, media_type), url) :: ca.trailer })

/-- The `_best_watchmode_id` helper: memoized Watchmode title search; a
failure is cached as `None` and not retried. -/
def best_watchmode_id (env : Env) (ca : Caches) (title : String) :
    Option Nat × List Ev × Caches :=
  match List.lookup title ca.wmId with
  | some v => (v, [], ca)
  | none =>
    match env.wm_search title with
    | .ok results =>
      let wmId := match results with
        | [] => none
        | r :: _ => r.id
      (wmId, [Ev.wmSearchCall], { ca with wmId := (title, wmId) :: ca.wmId })
    | .error _ => (none, [Ev.wmSearchCall], { ca with wmId := (title, none) :: ca.wmId })

/-- The `_watchmode_sources_cached` helper: memoized source lookup keyed by
(title, region); failures degrade to an empty list. -/
def watchmode_sources_cached (env : Env) (ca : Caches) (title region : String) :
    List Source × List Ev × Caches :=
  match List.lookup (title, region) ca.wmSources with
  | some v => (v, [], ca)
  | none =>
    let (wmId, e1, ca1) := best_watchmode_id env ca title
    match wmId with
    | none => ([], e1, { ca1 with wmSources := ((title, region), []) :: ca1.wmSources })
    | some wid =>
      let sources := match env.wm_sources wid region with
        | .ok s => s
        | .error _ => []
      (sources, e1 ++ [Ev.wmSourcesCall],
        { ca1 with wmSources := ((title, region), sources) :: ca1.wmSources })

/-- The `_availability_text` helper: source names, first-occurrence deduped,
truncated to six, comma-joined. -/
def availability_text (env : Env) (ca : Caches) (title region : String) :
    String × List Ev × Caches :=
  let (sources, evs, ca1) := watchmode_sources_cached env ca title region
  let names := sources.filterMap fun s =>
    let nm := orS s.name s.source
    if tstr nm then some (nm.getD "") else none
  (String.intercalate ", " ((dedupF names).take 6), evs, ca1)

/-! ## `recommender.py`: intent merging -/

/-- The content-type resolution of `recommend_ai` (explicit override, then
Gemini, then heuristic, then `"unknown"`, normalised with the literal
`"unknown"` replaced by `"movie"`). -/
def resolve_ct (ov gct hct : Option String) : String :=
  let ct_raw := getS (orS (orS ov gct) hct) "unknown"
  normalize_content_type (if ct_raw ≠ "unknown" then ct_raw else "movie")

/-- The intent-merging prologue of `recommend_ai` (lines 169-194 of the
source): fixed precedence per field, Gemini genre words mapped through
`TMDB_GENRES` with whole-source fallback to the heuristic ids. -/
def merge_intent (gOpt : Option GHint) (h : Intent) (ctOv langOv : Option String) : Merged :=
  let g := gOpt.getD {}
  let fromG := (g.genres.getD []).filterMap fun w => List.lookup (stripLower w) TMDB_GENRES
  let lang0 := orS (orS langOv g.language) h.language
  { ct := resolve_ct ctOv g.content_type h.content_type
    lang := if tstr lang0 then lang0 else none
    year_from := orN g.year_from h.year_from
    year_to := orN g.year_to h.year_to
    genre_ids := dedupF (if fromG.isEmpty then h.genres else fromG)
    title_query := orS g.title_query h.seed_title
    person_name := g.person_name
    person_role := g.person_role
    keyword_terms := g.keywords.getD [] }

/-! ## `recommender.py`: the five routing strategies -/

/-- Gate of the person route: a resolved person name or the person-query
heuristic. -/
def personActive (person_name : Option String) (user_text : String) : Bool :=
  tstr person_name || looks_like_person_query user_text

/-- Pool construction of the person route: role filter, media-type filter,
optional language filter, then the stable descending sort by `creditKey`. -/
def personPool (credits : Credits) (person_role : Option String) (ct : String)
    (lang : Option String) : List Cand :=
  let pool :=
    if person_role = some "director" then
      credits.crew.filter fun x => x.job = some "Director"
    else if person_role = some "writer" then
      credits.crew.filter fun x =>
        x.job = some "Writer" ∨ x.job = some "Screenplay" ∨ x.job = some "Story"
    else credits.cast
  let pool :=
    if ct = "movie" then pool.filter fun x => x.media_type = some "movie"
    else pool.filter fun x => x.media_type = some "tv"
  let pool := if tstr lang then pool.filter fun x => x.original_language = lang else pool
  sortByLe (fun a b => decide (creditKey b ≤ creditKey a)) pool

/-- The person route (step 2 of `recommend_ai`).  The name falls back to the
raw text with `movies`/`films` removed; an id-less first person hit makes the
credits URL malformed, so that request raises. -/
def personRoute (env : Env) (user_text : String) (ct : String)
    (lang person_name person_role : Option String) :
    Except Unit (List Cand × List Ev) := do
  let name :=
    if tstr person_name then person_name.getD ""
    else String.mk (stripChars (pyReplace (pyReplace user_text.data ("movies".data)) ("films".data)))
  let pr ← env.search_person name
  match pr with
  | [] => pure ([], [Ev.personSearch])
  | p :: _ =>
    match p.id with
    | none => Except.error ()
    | some pid => do
      let credits ← env.person_credits pid
      pure (personPool credits person_role ct lang, [Ev.personSearch, Ev.personCredits])

/-- First multi-search result whose media type fits the requested content
type (the loop with `break` in step 3). -/
def firstFit (ct : String) : List Cand → Option Cand
  | [] => none
  | r :: rs =>
    if (r.media_type = some "movie" ∨ r.media_type = some "tv") ∧
        ((ct = "movie" ∧ r.media_type = some "movie") ∨
         (ct = "series" ∧ r.media_type = some "tv")) then some r
    else firstFit ct rs

/-- Best multi-search match: a fitting result, else the first result. -/
def pickBest (ct : String) (m : List Cand) : Option Cand :=
  match firstFit ct m with
  | some b => some b
  | none => m.head?

/-- The title/seed route (step 3 of `recommend_ai`): multi search, best
match, its `similar` list with the seed prepended; returns the reassigned
media type when a seed was accepted. -/
def titleRoute (env : Env) (ct : String) (title_query : String) (tmdb_page : Nat) :
    Except Unit (List Cand × Option String × List Ev) := do
  let m ← env.search_multi title_query
  match pickBest ct m with
  | none => pure ([], none, [Ev.multiSearch])
  | some best =>
    if tnat best.id ∧ (best.media_type = some "movie" ∨ best.media_type = some "tv") then do
      let seedMedia := best.media_type.getD ""
      let sim ← env.similar (best.id.getD 0) seedMedia tmdb_page
      pure (best :: sim, some seedMedia, [Ev.multiSearch, Ev.similarCall])
    else
      pure ([], none, [Ev.multiSearch])

/-- Keyword-id resolution loop of step 4 (one search per term, first hit
per term). -/
def kwLoop (env : Env) : List String → Except Unit (List (Option Nat) × List Ev)
  | [] => pure ([], [])
  | t :: ts => do
    let kw ← env.search_keyword t
    let (rest, evs) ← kwLoop env ts
    match kw with
    | [] => pure (rest, Ev.keywordSearch :: evs)
    | k :: _ => pure (k.id :: rest, Ev.keywordSearch :: evs)

/-- The discovery query built by steps 4 and 5. -/
def mkQuery (m : Merged) (tmdb_page : Nat) (withKw : Option (List Nat)) : DiscoverQ :=
  { genres := if m.genre_ids.isEmpty then none else some m.genre_ids
    page := tmdb_page
    language := m.lang
    year_from := m.year_from
    year_to := m.year_to
    with_keywords := withKw }

/-- The keyword route (step 4): resolve up to two keyword terms to ids, then
a filtered discovery call. -/
def keywordRoute (env : Env) (m : Merged) (tmdb_page : Nat) :
    Except Unit (List Cand × String × List Ev) := do
  let (ids, evk) ← kwLoop env (m.keyword_terms.take 2)
  let kwIds := truthyNats ids
  let q := mkQuery m tmdb_page (if kwIds.isEmpty then none else some kwIds)
  if m.ct = "movie" then do
    let r ← env.discover_movie q
    pure (r, "movie", evk ++ [Ev.discoverMovieCall])
  else do
    let r ← env.discover_tv q
    pure (r, "tv", evk ++ [Ev.discoverTvCall])

/-- The default discovery route (step 5). -/
def defaultRoute (env : Env) (m : Merged) (tmdb_page : Nat) :
    Except Unit (List Cand × String × List Ev) := do
  let q := mkQuery m tmdb_page none
  if m.ct = "movie" then do
    let r ← env.discover_movie q
    pure (r, "movie", [Ev.discoverMovieCall])
  else do
    let r ← env.discover_tv q
    pure (r, "tv", [Ev.discoverTvCall])

/-- The plain text fallback search (step 6). -/
def fallbackRoute (env : Env) (m : Merged) (user_text : String) (tmdb_page : Nat) :
    Except Unit (List Cand × String × List Ev) := do
  if m.ct = "movie" then do
    let r ← env.search_movie (String.mk (stripChars user_text.data)) tmdb_page
    pure (r, "movie", [Ev.searchMovieCall])
  else do
    let r ← env.search_tv (String.mk (stripChars user_text.data)) tmdb_page
    pure (r, "tv", [Ev.searchTvCall])

/-- Step 2 of `recommend_ai` with its gate: the person route runs only when
active, otherwise the candidate list stays empty with no calls made. -/
def personStep (env : Env) (user_text : String) (m : Merged) :
    Except Unit (List Cand × List Ev) :=
  if personActive m.person_name user_text then
    personRoute env user_text m.ct m.lang m.person_name m.person_role
  else pure ([], [])

/-- Step 3 with its gate: the title route runs only on an empty candidate
list and a truthy title query; its media-type reassignment defaults back to
the previous media type when no seed was accepted. -/
def titleStep (env : Env) (m : Merged) (tmdb_page : Nat) (c1 : List Cand) (media0 : String) :
    Except Unit (List Cand × String × List Ev) :=
  if c1.isEmpty && tstr m.title_query then do
    let (cands, mtOpt, tv) ← titleRoute env m.ct (m.title_query.getD "") tmdb_page
    pure (cands, mtOpt.getD media0, tv)
  else pure (c1, media0, ([] : List Ev))

/-- Step 4 with its gate: the keyword route runs only on an empty candidate
list and non-empty keyword terms. -/
def keywordStep (env : Env) (m : Merged) (tmdb_page : Nat) (c2 : List Cand) (mt2 : String) :
    Except Unit (List Cand × String × List Ev) :=
  if c2.isEmpty && !m.keyword_terms.isEmpty then keywordRoute env m tmdb_page
  else pure (c2, mt2, ([] : List Ev))

/-- Step 5 with its gate: default discovery runs on an empty candidate list. -/
def defaultStep (env : Env) (m : Merged) (tmdb_page : Nat) (c3 : List Cand) (mt3 : String) :
    Except Unit (List Cand × String × List Ev) :=
  if c3.isEmpty then defaultRoute env m tmdb_page
  else pure (c3, mt3, ([] : List Ev))

/-- Step 6 with its gate: the fallback text search runs on an empty
candidate list when the stripped user text is non-empty. -/
def fallbackStep (env : Env) (m : Merged) (user_text : String) (tmdb_page : Nat)
    (c4 : List Cand) (mt4 : String) :
    Except Unit (List Cand × String × List Ev) :=
  if c4.isEmpty && stripChars user_text.data ≠ [] then fallbackRoute env m user_text tmdb_page
  else pure (c4, mt4, ([] : List Ev))

/-- The candidate router: the five strategies of `recommend_ai` (steps 2-6),
each tried only while the candidate list is still empty. -/
def routeCandidates (env : Env) (user_text : String) (m : Merged) (tmdb_page : Nat) :
    Except Unit (List Cand × String × List Ev) := do
  let media0 := if m.ct = "movie" then "movie" else "tv"
  let (c1, t1) ← personStep env user_text m
  let (c2, mt2, t2) ← titleStep env m tmdb_page c1 media0
  let (c3, mt3, t3) ← keywordStep env m tmdb_page c2 mt2
  let (c4, mt4, t4) ← defaultStep env m tmdb_page c3 mt3
  let (c5, mt5, t5) ← fallbackStep env m user_text tmdb_page c4 mt4
  pure (c5, mt5, t1 ++ t2 ++ t3 ++ t4 ++ t5)

/-! ## `recommender.py`: enrichment loop and response -/

/-- The budgeted trailer lookup of one loop iteration: an attempt only while
the per-request counter is below `TRAILER_LOOKUPS_PER_REQUEST`. -/
def trailerStep (env : Env) (ca : Caches) (tmdbId : Nat) (media_type : String) (tc : Nat) :
    Option String × List Ev × Caches × Nat :=
  if tc < TRAILER_LOOKUPS_PER_REQUEST then
    let r := trailer_cached env ca tmdbId media_type
    (r.1, Ev.trailerAttempt :: r.2.1, r.2.2, tc + 1)
  else (none, [], ca, tc)

/-- The budgeted availability lookup of one loop iteration, followed by the
unconditional `time.sleep(WATCHMODE_SLEEP_BETWEEN_CALLS)`. -/
def availStep (env : Env) (ca : Caches) (title : String) (ac : Nat) :
    String × List Ev × Caches × Nat :=
  if ac < AVAILABILITY_LOOKUPS_PER_REQUEST then
    let r := availability_text env ca title DEFAULT_REGION
    (r.1, Ev.availAttempt :: r.2.1 ++ [Ev.sleep], r.2.2, ac + 1)
  else ("", [], ca, ac)

/-- The output item built for one candidate. -/
def mkItem (c : Cand) (media_type : String) (genre_ids : List Nat)
    (lang title_query : Option String) (title : String) (trailer : Option String)
    (availability : String) : Item :=
  { type := if media_type = "movie" then "movie" else "series"
    title := title
    overview := c.overview
    rating := c.vote_average
    popularity := c.popularity
    language := c.original_language
    release_date := c.release_date
    first_air_date := c.first_air_date
    tmdb_id := c.id.getD 0
    poster_url := tmdb_poster_url c.poster_path "w500"
    backdrop_url := tmdb_backdrop_url c.backdrop_path "w780"
    trailer_url := trailer
    available_on := availability
    score := score_100 c genre_ids lang (if tstr title_query then 6 / 100 else 0) }

/-- The per-candidate enrichment and scoring loop (step 7 of `recommend_ai`):
skip id-less or title-less candidates, budgeted trailer and availability
lookups with the unconditional sleep after each availability attempt, score
with the title-query bonus, stop once `page_size` items are built. -/
def buildLoop (env : Env) (media_type : String) (genre_ids : List Nat)
    (lang title_query : Option String) (page_size : Nat) :
    List Cand → Nat → Nat → Nat → Caches → List Item × List Ev × Caches
  | [], _, _, _, ca => ([], [], ca)
  | c :: cs, tc, ac, ilen, ca =>
    if !tnat c.id then buildLoop env media_type genre_ids lang title_query page_size cs tc ac ilen ca
    else
      let titleOpt := if media_type = "movie" then c.title else c.name
      if !tstr titleOpt then
        buildLoop env media_type genre_ids lang title_query page_size cs tc ac ilen ca
      else
        let s1 := trailerStep env ca (c.id.getD 0) media_type tc
        let s2 := availStep env s1.2.2.1 (titleOpt.getD "") ac
        let it := mkItem c media_type genre_ids lang title_query (titleOpt.getD "") s1.1 s2.1
        if ilen + 1 ≥ page_size then ([it], s1.2.1 ++ s2.2.1, s2.2.2.1)
        else
          let rest := buildLoop env media_type genre_ids lang title_query page_size cs
            s1.2.2.2 s2.2.2.2 (ilen + 1) s2.2.2.1
          (it :: rest.1, s1.2.1 ++ s2.2.1 ++ rest.2.1, rest.2.2)

/-- Entry point of the enrichment loop with fresh counters. -/
def buildItems (env : Env) (media_type : String) (genre_ids : List Nat)
    (lang title_query : Option String) (page_size : Nat) (cands : List Cand)
    (ca : Caches) : List Item × List Ev × Caches :=
  buildLoop env media_type genre_ids lang title_query page_size cands 0 0 0 ca

/-- The candidates the loop actually turns into items: the source's
`if not xid: continue` and `if not title: continue` guards and the
`len(items) >= page_size: break` cut, with no enrichment state — a pure
projection of `buildLoop` used to pin each returned score to its source
candidate. -/
def keptCands (media_type : String) (page_size : Nat) :
    List Cand → Nat → List Cand
  | [], _ => []
  | c :: cs, ilen =>
    if !tnat c.id then keptCands media_type page_size cs ilen
    else
      let titleOpt := if media_type = "movie" then c.title else c.name
      if !tstr titleOpt then keptCands media_type page_size cs ilen
      else if ilen + 1 ≥ page_size then [c]
      else c :: keptCands media_type page_size cs (ilen + 1)

/-- The `recommend_ai` entry point: oracle call, intent merge, routing,
deduplication, enrichment, stable descending sort by score, envelope.  The
result carries the event trace and the updated caches; `.error ()` is an
exception escaping to the caller. -/
def recommend_ai (env : Env) (ca : Caches) (user_text : String)
    (content_type language : Option String) (page page_size : Nat) :
    Except Unit (Resp × List Ev × Caches) := do
  let gOpt ← env.gemini user_text
  let m := merge_intent gOpt (parse_intent user_text) content_type language
  let tmdb_page := max page 1
  let (cands0, media_type, tr) ← routeCandidates env user_text m tmdb_page
  let cands := dedupe_by_id cands0
  let built := buildItems env media_type m.genre_ids m.lang m.title_query page_size cands ca
  let items := sortByLe (fun a b => decide (b.score ≤ a.score)) built.1
  pure
    ({ items := items
       page := tmdb_page
       page_size := page_size
       intent :=
         { content_type := if media_type = "movie" then "movie" else "series"
           language := m.lang
           genres := m.genre_ids
           year_from := m.year_from
           year_to := m.year_to
           title_query := m.title_query
           person_name := m.person_name
           person_role := m.person_role
           keywords := m.keyword_terms
           phase3_gemini_enabled := gOpt.isSome } },
     tr ++ built.2.1, built.2.2)

/-! ## Observation helpers for the theorems -/

instance {ε α : Type} [DecidableEq ε] [DecidableEq α] : DecidableEq (Except ε α) :=
  fun x y =>
    match x, y with
    | .ok a, .ok b => if h : a = b then isTrue (by simp [h]) else isFalse (by simp [h])
    | .ok _, .error _ => isFalse (by simp)
    | .error _, .ok _ => isFalse (by simp)
    | .error e, .error f => if h : e = f then isTrue (by simp [h]) else isFalse (by simp [h])

/-- The event trace of a request (empty when the request raised). -/
def traceOf (r : Except Unit (Resp × List Ev × Caches)) : List Ev :=
  match r with
  | .ok out => out.2.1
  | .error _ => []

/-- The returned items of a request (empty when the request raised). -/
def itemsOf (r : Except Unit (Resp × List Ev × Caches)) : List Item :=
  match r with
  | .ok out => out.1.items
  | .error _ => []

/-- Number of occurrences of one event kind in a trace. -/
def countEv (tr : List Ev) (e : Ev) : Nat :=
  (tr.filter fun x => x = e).length

/-- Events that the four strategies after the person route (and only they)
can emit: title multi-search, similar, keyword search, discovery, fallback
text search. -/
def isLaterRouteEv : Ev → Bool
  | Ev.multiSearch => true
  | Ev.similarCall => true
  | Ev.keywordSearch => true
  | Ev.discoverMovieCall => true
  | Ev.discoverTvCall => true
  | Ev.searchMovieCall => true
  | Ev.searchTvCall => true
  | _ => false

/-- Truthiness filter on candidate lists: keeps candidates whose truthy id
is not among the already seen ones (spec-side helper for the deduplicator). -/
def unseenId (seen : List Nat) (c : Cand) : Bool :=
  match tid c with
  | none => true
  | some i => decide (i ∉ seen)

/-- Events emitted by the enrichment loop (trailer and availability lookups
and the rate-limit sleep). -/
def isEnrichEv : Ev → Bool
  | Ev.trailerAttempt => true
  | Ev.trailerFetch => true
  | Ev.availAttempt => true
  | Ev.wmSearchCall => true
  | Ev.wmSourcesCall => true
  | Ev.sleep => true
  | _ => false

/-- Events emitted by the retrieval strategies. -/
def isRouteEv : Ev → Bool
  | Ev.personSearch => true
  | Ev.personCredits => true
  | Ev.multiSearch => true
  | Ev.similarCall => true
  | Ev.keywordSearch => true
  | Ev.discoverMovieCall => true
  | Ev.discoverTvCall => true
  | Ev.searchMovieCall => true
  | Ev.searchTvCall => true
  | _ => false

/-- A trace made only of retrieval-strategy events. -/
def routeTrOk (t : List Ev) : Prop := ∀ e ∈ t, isRouteEv e = true

/-! ## Concrete environments and candidates for the witness runs -/

/-- A base stub environment: the intent oracle is unavailable, every other
external call raises. -/
def envBase : Env :=
  { gemini := fun _ => Except.ok none
    search_person := fun _ => Except.error ()
    person_credits := fun _ => Except.error ()
    search_multi := fun _ => Except.error ()
    similar := fun _ _ _ => Except.error ()
    search_keyword := fun _ => Except.error ()
    discover_movie := fun _ => Except.error ()
    discover_tv := fun _ => Except.error ()
    search_movie := fun _ _ => Except.error ()
    search_tv := fun _ _ => Except.error ()
    get_trailer_url := fun _ _ => Except.error ()
    wm_search := fun _ => Except.error ()
    wm_sources := fun _ _ => Except.error () }

/-- A stub environment where every primary retrieval call succeeds with an
empty result list while both enrichment providers keep raising. -/
def envOkEmpty : Env :=
  { envBase with
    search_person := fun _ => Except.ok []
    search_multi := fun _ => Except.ok []
    similar := fun _ _ _ => Except.ok []
    search_keyword := fun _ => Except.ok []
    discover_movie := fun _ => Except.ok []
    discover_tv := fun _ => Except.ok []
    search_movie := fun _ _ => Except.ok []
    search_tv := fun _ _ => Except.ok [] }

/-- A weak candidate: zero rating and popularity, no genres. -/
def candA : Cand :=
  { id := some 1, title := some "T", vote_average := some 0, popularity := some 0,
    genre_ids := some [], original_language := some "en" }

/-- A stub environment whose movie discovery returns `candA`; title search
finds nothing. -/
def envC2 : Env :=
  { envOkEmpty with discover_movie := fun _ => Except.ok [candA] }

/-- A popular movie credit of the stub person. -/
def candM : Cand :=
  { id := some 9, title := some "MovieX", vote_average := some 5, popularity := some 10,
    genre_ids := some [], original_language := some "en", media_type := some "movie" }

/-- A stub environment where person search resolves and the combined credits
contain one movie cast entry. -/
def envC3 : Env :=
  { envOkEmpty with
    search_person := fun _ => Except.ok [{ id := some 5 }]
    person_credits := fun _ => Except.ok { cast := [candM], crew := [] } }

/-- Two candidates sharing one title (distinct ids). -/
def candB1 : Cand :=
  { id := some 1, title := some "Same", vote_average := some 0, popularity := some 0,
    genre_ids := some [], original_language := some "en" }

/-- Second candidate with the shared title. -/
def candB2 : Cand :=
  { id := some 2, title := some "Same", vote_average := some 0, popularity := some 0,
    genre_ids := some [], original_language := some "en" }

/-- A stub environment whose movie discovery returns the two same-title
candidates and whose Watchmode providers answer. -/
def envC8 : Env :=
  { envOkEmpty with
    discover_movie := fun _ => Except.ok [candB1, candB2]
    wm_search := fun _ => Except.ok [{ id := some 3 }]
    wm_sources := fun _ _ => Except.ok [] }

/-- A middling candidate used in the bounds witness. -/
def candW : Cand :=
  { id := some 4, title := some "W", vote_average := some 5, popularity := some 3,
    genre_ids := some [12], original_language := some "en" }

/-- A maximal candidate: top rating, full genre overlap, high popularity,
matching language. -/
def candMax : Cand :=
  { id := some 6, title := some "Max", vote_average := some 10, popularity := some 300,
    genre_ids := some [35, 28], original_language := some "hi" }

/-! ## Permutation and de-duplication lemmas -/

theorem insertLe_perm {α : Type} (le : α → α → Bool) (x : α) (l : List α) :
    List.Perm (insertLe le x l) (x :: l) := by
  induction l with
  | nil => simp [insertLe]
  | cons y ys ih =>
    simp only [insertLe]
    split
    · exact List.Perm.refl _
    · exact ((ih.cons y).trans (List.Perm.swap x y ys))

theorem sortByLe_perm {α : Type} (le : α → α → Bool) (l : List α) :
    List.Perm (sortByLe le l) l := by
  induction l with
  | nil => simp [sortByLe]
  | cons x xs ih => exact (insertLe_perm le x (sortByLe le xs)).trans (ih.cons x)

theorem mem_dedupF_go {α : Type} [DecidableEq α] (seen : List α) (l : List α) (x : α) :
    x ∈ dedupF.go seen l ↔ x ∈ l ∧ x ∉ seen := by
  induction l generalizing seen with
  | nil => simp [dedupF.go]
  | cons y ys ih =>
    by_cases hy : y ∈ seen
    · simp only [dedupF.go, if_pos hy, ih, List.mem_cons]
      constructor
      · rintro ⟨hx, hs⟩
        exact ⟨Or.inr hx, hs⟩
      · rintro ⟨hx | hx, hs⟩
        · subst hx; exact absurd hy hs
        · exact ⟨hx, hs⟩
    · simp only [dedupF.go, if_neg hy, List.mem_cons, ih]
      constructor
      · rintro (rfl | ⟨hx, hs⟩)
        · exact ⟨Or.inl rfl, hy⟩
        · exact ⟨Or.inr hx, fun h => hs (Or.inr h)⟩
      · rintro ⟨rfl | hx, hs⟩
        · exact Or.inl rfl
        · by_cases hxy : x = y
          · exact Or.inl hxy
          · refine Or.inr ⟨hx, fun h => ?_⟩
            rcases h with h | h
            · exact hxy h
            · exact hs h

theorem dedupF_go_nodup {α : Type} [DecidableEq α] (seen : List α) (l : List α) :
    (dedupF.go seen l).Nodup := by
  induction l generalizing seen with
  | nil => simp [dedupF.go]
  | cons y ys ih =>
    by_cases hy : y ∈ seen
    · simp only [dedupF.go, if_pos hy]
      exact ih seen
    · simp only [dedupF.go, if_neg hy]
      refine List.Nodup.cons ?_ (ih (y :: seen))
      intro hmem
      exact ((mem_dedupF_go _ _ _).mp hmem).2 (List.mem_cons_self y seen)

theorem dedupF_go_sublist {α : Type} [DecidableEq α] (seen : List α) (l : List α) :
    List.Sublist (dedupF.go seen l) l := by
  induction l generalizing seen with
  | nil => simp [dedupF.go]
  | cons y ys ih =>
    by_cases hy : y ∈ seen
    · simp only [dedupF.go, if_pos hy]
      exact (ih seen).cons y
    · simp only [dedupF.go, if_neg hy]
      exact (ih (y :: seen)).cons₂ y

theorem dedupF_nodup {α : Type} [DecidableEq α] (l : List α) : (dedupF l).Nodup :=
  dedupF_go_nodup [] l

theorem dedupF_sublist {α : Type} [DecidableEq α] (l : List α) : List.Sublist (dedupF l) l :=
  dedupF_go_sublist [] l

theorem mem_dedupF {α : Type} [DecidableEq α] (l : List α) (x : α) :
    x ∈ dedupF l ↔ x ∈ l := by
  rw [dedupF, mem_dedupF_go]; simp
theorem pyRound_nonneg {q : ℚ} (h : 0 ≤ q) : 0 ≤ pyRound q := by
  have h0 : (0 : ℤ) ≤ ⌊q⌋ := Int.floor_nonneg.mpr h
  simp only [pyRound]
  split_ifs <;> omega

theorem pyRound_le_hundred {q : ℚ} (h : q ≤ 100) : pyRound q ≤ 100 := by
  have hf : ⌊q⌋ ≤ 100 := by
    have h1 : ⌊q⌋ ≤ ⌊(100 : ℚ)⌋ := Int.floor_le_floor h
    simpa using h1
  have hfl : (⌊q⌋ : ℚ) ≤ q := Int.floor_le q
  simp only [pyRound]
  split_ifs with h1 h2 h3
  · exact hf
  · by_contra hc
    push_neg at hc
    have hf100 : ⌊q⌋ = 100 := by omega
    rw [hf100] at h2
    push_cast at h2
    linarith
  · exact hf
  · by_contra hc
    push_neg at hc
    have hf100 : ⌊q⌋ = 100 := by omega
    rw [hf100] at h1
    push_cast at h1
    linarith

theorem pyRound_hundred : pyRound (100 : ℚ) = 100 := by decide

/-- C4: the composite score is an integer in [0, 100] for every candidate
with rating in [0,10] and non-negative popularity, for every target genre
set, target language and bonus in the set containing 0 and 0.06; and a
candidate with rating 10, full overlap of a non-empty target genre set,
popularity at least 200, matching language and the bonus applied scores
exactly 100. -/
theorem score_100_bounded_and_maximal :
    (∀ (c : Cand) (gs : List Nat) (l : Option String) (b : ℚ),
      0 ≤ ratingQ c → ratingQ c ≤ 10 → 0 ≤ popQ c → (b = 0 ∨ b = 6 / 100) →
      0 ≤ score_100 c gs l b ∧ score_100 c gs l b ≤ 100) ∧
    (∀ (c : Cand) (gs : List Nat) (l : Option String) (b : ℚ),
      ratingQ c = 10 → gs ≠ [] → gs.toFinset ⊆ (c.genre_ids.getD []).toFinset →
      200 ≤ popQ c → tstr l = true → c.original_language = l → b = 6 / 100 →
      score_100 c gs l b = 100) := by
  constructor
  · intro c gs l b hr0 hr10 hp hb
    have hb0 : 0 ≤ b := by
      rcases hb with rfl | rfl
      · exact le_refl 0
      · norm_num
    simp only [score_100]
    have hov : (0 : ℚ) ≤ (if gs ≠ [] then
        (((c.genre_ids.getD []).toFinset ∩ gs.toFinset).card : ℚ) /
          ((gs.toFinset.card : ℚ) ⊔ 1) else 35 / 100) := by
      split_ifs
      · refine div_nonneg (by positivity) ?_
        exact le_trans zero_le_one (le_max_right _ 1)
      · norm_num
    have hlm : (0 : ℚ) ≤ (if tstr l ∧ c.original_language = l then (1 : ℚ) else 0) := by
      split_ifs <;> norm_num
    have hpn0 : (0 : ℚ) ≤ min (popQ c / 200) 1 := le_min (by positivity) (by norm_num)
    have hrq : (0 : ℚ) ≤ ratingQ c / 10 := by positivity
    constructor
    · apply pyRound_nonneg
      have h1 : (0 : ℚ) ≤ min (50 / 100 * (ratingQ c / 10) + 25 / 100 *
          (if gs ≠ [] then (((c.genre_ids.getD []).toFinset ∩ gs.toFinset).card : ℚ) /
            ((gs.toFinset.card : ℚ) ⊔ 1) else 35 / 100) +
          20 / 100 * min (popQ c / 200) 1 +
          5 / 100 * (if tstr l ∧ c.original_language = l then (1 : ℚ) else 0) + b) 1 :=
        le_min (by nlinarith) (by norm_num)
      nlinarith
    · apply pyRound_le_hundred
      have h2 : min (50 / 100 * (ratingQ c / 10) + 25 / 100 *
          (if gs ≠ [] then (((c.genre_ids.getD []).toFinset ∩ gs.toFinset).card : ℚ) /
            ((gs.toFinset.card : ℚ) ⊔ 1) else 35 / 100) +
          20 / 100 * min (popQ c / 200) 1 +
          5 / 100 * (if tstr l ∧ c.original_language = l then (1 : ℚ) else 0) + b) 1 ≤ 1 :=
        min_le_right _ _
      nlinarith
  · intro c gs l b hr hgs hsub hp hl hol hb
    simp only [score_100]
    have hcard0 : gs.toFinset.card ≠ 0 := by
      simp only [ne_eq, Finset.card_eq_zero]
      intro h
      exact hgs (List.toFinset_eq_empty_iff gs |>.mp h)
    have hc1 : (1 : ℚ) ≤ (gs.toFinset.card : ℚ) := by
      exact_mod_cast Nat.one_le_iff_ne_zero.mpr hcard0
    have hinter : (c.genre_ids.getD []).toFinset ∩ gs.toFinset = gs.toFinset :=
      Finset.inter_eq_right.mpr hsub
    have hov : (((c.genre_ids.getD []).toFinset ∩ gs.toFinset).card : ℚ) /
        ((gs.toFinset.card : ℚ) ⊔ 1) = 1 := by
      rw [hinter, max_eq_left hc1]
      exact div_self (Nat.cast_ne_zero.mpr hcard0)
    have hpn : min (popQ c / 200) 1 = 1 := by
      apply min_eq_right
      rw [le_div_iff₀ (by norm_num : (0:ℚ) < 200)]
      linarith
    have hlm : (if tstr l ∧ c.original_language = l then (1 : ℚ) else 0) = 1 :=
      if_pos ⟨hl, hol⟩
    rw [if_pos hgs, hov, hpn, hlm, hr, hb]
    have harg : min ((50 : ℚ) / 100 * (10 / 10) + 25 / 100 * 1 + 20 / 100 * 1 +
        5 / 100 * 1 + 6 / 100) 1 * 100 = 100 := by
      rw [min_def]
      norm_num
    rw [harg, pyRound_hundred]

/-- C10: `parse_intent` is a total function whose result is well formed on
every input: the genre list is duplicate-free, is a subsequence of the raw
whole-word genre matches (first occurrence kept, order preserved, no match
lost), the seed title is either absent or a non-empty string, and the
content type is either unset or one of the two concrete categories. -/
theorem parse_intent_total_wellformed (text : String) :
    (parse_intent text).genres.Nodup ∧
    List.Sublist (parse_intent text).genres (collectGenres (lcList (stripChars text.data))) ∧
    (∀ g, g ∈ (parse_intent text).genres ↔ g ∈ collectGenres (lcList (stripChars text.data))) ∧
    ((parse_intent text).seed_title = none ∨
      ∃ s, (parse_intent text).seed_title = some s ∧ s ≠ "") ∧
    ((parse_intent text).content_type = none ∨
      (parse_intent text).content_type = some "movie" ∨
      (parse_intent text).content_type = some "series") := by
  have hg : (parse_intent text).genres = dedupF (collectGenres (lcList (stripChars text.data))) := rfl
  have hseed : (parse_intent text).seed_title = seedTitle (lcList (stripChars text.data)) := rfl
  have hct : (parse_intent text).content_type = contentHint (lcList (stripChars text.data)) := rfl
  refine ⟨?_, ?_, ?_, ?_, ?_⟩
  · rw [hg]; exact dedupF_nodup _
  · rw [hg]; exact dedupF_sublist _
  · intro g; rw [hg]; exact mem_dedupF _ _
  · rw [hseed]
    unfold seedTitle
    split
    · exact Or.inl rfl
    · next rest heq =>
      by_cases h : stripChars (truncOnFrom none (stripChars rest)) = []
      · exact Or.inl (by simp [h])
      · refine Or.inr ⟨String.mk (stripChars (truncOnFrom none (stripChars rest))), by simp [h], ?_⟩
        intro hempty
        exact h (congrArg String.data hempty)
  · rw [hct]
    unfold contentHint
    cases hf : CONTENT_HINTS.find? fun p => p.2.any fun k => containsSub (lcList (stripChars text.data)) k.data with
    | none => exact Or.inl rfl
    | some a =>
      have hmem : a ∈ CONTENT_HINTS := List.mem_of_find?_eq_some hf
      simp only [CONTENT_HINTS, List.mem_cons, List.mem_singleton, List.not_mem_nil, or_false] at hmem
      rcases hmem with rfl | rfl
      · exact Or.inr (Or.inl rfl)
      · exact Or.inr (Or.inr rfl)

theorem countEv_append (a b : List Ev) (e : Ev) :
    countEv (a ++ b) e = countEv a e + countEv b e := by
  simp [countEv, List.filter_append]

theorem countEv_nil (e : Ev) : countEv [] e = 0 := rfl

theorem countEv_eq_zero_of_not_mem {tr : List Ev} {e : Ev} (h : e ∉ tr) :
    countEv tr e = 0 := by
  simp only [countEv, List.length_eq_zero]
  apply List.filter_eq_nil.mpr
  intro a ha
  simp only [decide_eq_true_eq]
  intro rfl_eq
  exact h (rfl_eq ▸ ha)

theorem trailer_cached_evs (env : Env) (ca : Caches) (i : Nat) (mt : String) :
    ∀ e ∈ (trailer_cached env ca i mt).2.1, e = Ev.trailerFetch := by
  unfold trailer_cached
  split
  · simp
  · simp

theorem best_watchmode_id_evs (env : Env) (ca : Caches) (t : String) :
    ∀ e ∈ (best_watchmode_id env ca t).2.1, e = Ev.wmSearchCall := by
  unfold best_watchmode_id
  split
  · simp
  · split <;> simp

theorem watchmode_sources_cached_evs (env : Env) (ca : Caches) (t r : String) :
    ∀ e ∈ (watchmode_sources_cached env ca t r).2.1,
      e = Ev.wmSearchCall ∨ e = Ev.wmSourcesCall := by
  intro e he
  have hbase : ∀ x ∈ (best_watchmode_id env ca t).2.1, x = Ev.wmSearchCall :=
    best_watchmode_id_evs env ca t
  unfold watchmode_sources_cached at he
  split at he
  · simp at he
  · rcases hb : best_watchmode_id env ca t with ⟨wmId, e1, ca1⟩
    rw [hb] at he hbase
    cases wmId with
    | none =>
      simp only at he
      exact Or.inl (hbase e he)
    | some wid =>
      simp only at he
      rcases List.mem_append.mp he with h | h
      · exact Or.inl (hbase e h)
      · exact Or.inr (List.mem_singleton.mp h)

theorem availability_text_evs (env : Env) (ca : Caches) (t r : String) :
    ∀ e ∈ (availability_text env ca t r).2.1,
      e = Ev.wmSearchCall ∨ e = Ev.wmSourcesCall := by
  unfold availability_text
  intro e he
  exact watchmode_sources_cached_evs env ca t r e he

theorem trailerStep_evs (env : Env) (ca : Caches) (i : Nat) (mt : String) (tc : Nat) :
    ∀ e ∈ (trailerStep env ca i mt tc).2.1,
      e = Ev.trailerAttempt ∨ e = Ev.trailerFetch := by
  intro e he
  unfold trailerStep at he
  split at he
  · simp only [List.mem_cons] at he
    rcases he with rfl | he
    · exact Or.inl rfl
    · exact Or.inr (trailer_cached_evs env ca i mt e he)
  · simp at he

theorem countEv_cons (x : Ev) (tr : List Ev) (e : Ev) :
    countEv (x :: tr) e = (if x = e then 1 else 0) + countEv tr e := by
  by_cases h : x = e <;> simp [countEv, List.filter_cons, h, Nat.add_comm]

theorem countEv_zero_of_all {tr : List Ev} {e : Ev}
    (h : ∀ x ∈ tr, x ≠ e) : countEv tr e = 0 := by
  apply countEv_eq_zero_of_not_mem
  intro hmem
  exact h e hmem rfl

theorem trailerStep_attempt_count (env : Env) (ca : Caches) (i : Nat) (mt : String) (tc : Nat) :
    countEv (trailerStep env ca i mt tc).2.1 Ev.trailerAttempt =
      if tc < TRAILER_LOOKUPS_PER_REQUEST then 1 else 0 := by
  unfold trailerStep
  split_ifs with h
  · simp only [countEv_cons, if_pos rfl]
    have hz : countEv (trailer_cached env ca i mt).2.1 Ev.trailerAttempt = 0 := by
      apply countEv_zero_of_all
      intro x hx hc
      have hfe := trailer_cached_evs env ca i mt x hx
      rw [hc] at hfe
      cases hfe
    rw [hz]
    simp
  · rfl

theorem trailerStep_counter (env : Env) (ca : Caches) (i : Nat) (mt : String) (tc : Nat) :
    (trailerStep env ca i mt tc).2.2.2 =
      if tc < TRAILER_LOOKUPS_PER_REQUEST then tc + 1 else tc := by
  unfold trailerStep
  split_ifs <;> rfl

theorem availStep_evs (env : Env) (ca : Caches) (t : String) (ac : Nat) :
    ∀ e ∈ (availStep env ca t ac).2.1,
      e = Ev.availAttempt ∨ e = Ev.wmSearchCall ∨ e = Ev.wmSourcesCall ∨ e = Ev.sleep := by
  intro e he
  unfold availStep at he
  split at he
  · rcases List.mem_cons.mp he with rfl | he2
    · exact Or.inl rfl
    · rcases List.mem_append.mp he2 with h | h
      · rcases availability_text_evs env ca t DEFAULT_REGION e h with h2 | h2
        · exact Or.inr (Or.inl h2)
        · exact Or.inr (Or.inr (Or.inl h2))
      · exact Or.inr (Or.inr (Or.inr (List.mem_singleton.mp h)))
  · simp at he

theorem availStep_attempt_count (env : Env) (ca : Caches) (t : String) (ac : Nat) :
    countEv (availStep env ca t ac).2.1 Ev.availAttempt =
      if ac < AVAILABILITY_LOOKUPS_PER_REQUEST then 1 else 0 := by
  simp only [availStep]
  split_ifs with h
  · show countEv (Ev.availAttempt :: (availability_text env ca t DEFAULT_REGION).2.1 ++
      [Ev.sleep]) Ev.availAttempt = 1
    have hz : countEv (availability_text env ca t DEFAULT_REGION).2.1 Ev.availAttempt = 0 := by
      apply countEv_zero_of_all
      intro x hx hc
      subst hc
      rcases availability_text_evs env ca t DEFAULT_REGION _ hx with h2 | h2 <;> cases h2
    rw [countEv_append, countEv_cons, if_pos rfl, hz]
    rfl
  · rfl

theorem availStep_sleep_count (env : Env) (ca : Caches) (t : String) (ac : Nat) :
    countEv (availStep env ca t ac).2.1 Ev.sleep =
      if ac < AVAILABILITY_LOOKUPS_PER_REQUEST then 1 else 0 := by
  simp only [availStep]
  split_ifs with h
  · show countEv (Ev.availAttempt :: (availability_text env ca t DEFAULT_REGION).2.1 ++
      [Ev.sleep]) Ev.sleep = 1
    have hz : countEv (availability_text env ca t DEFAULT_REGION).2.1 Ev.sleep = 0 := by
      apply countEv_zero_of_all
      intro x hx hc
      subst hc
      rcases availability_text_evs env ca t DEFAULT_REGION _ hx with h2 | h2 <;> cases h2
    rw [countEv_append, countEv_cons, if_neg (by intro hc; cases hc), hz]
    rfl
  · rfl

theorem availStep_counter (env : Env) (ca : Caches) (t : String) (ac : Nat) :
    (availStep env ca t ac).2.2.2 =
      if ac < AVAILABILITY_LOOKUPS_PER_REQUEST then ac + 1 else ac := by
  unfold availStep
  split_ifs <;> rfl

theorem trailerStep_no_avail (env : Env) (ca : Caches) (i : Nat) (mt : String) (tc : Nat) :
    countEv (trailerStep env ca i mt tc).2.1 Ev.availAttempt = 0 ∧
    countEv (trailerStep env ca i mt tc).2.1 Ev.sleep = 0 := by
  constructor <;>
  · apply countEv_zero_of_all
    intro x hx hc
    subst hc
    rcases trailerStep_evs env ca i mt tc _ hx with h | h <;> cases h

theorem availStep_no_trailer (env : Env) (ca : Caches) (t : String) (ac : Nat) :
    countEv (availStep env ca t ac).2.1 Ev.trailerAttempt = 0 := by
  apply countEv_zero_of_all
  intro x hx hc
  subst hc
  rcases availStep_evs env ca t ac _ hx with h | h | h | h <;> cases h

theorem trailerStep_val_none (env : Env) (ca : Caches) (i : Nat) (mt : String) (tc : Nat)
    (h : ¬ tc < TRAILER_LOOKUPS_PER_REQUEST) : (trailerStep env ca i mt tc).1 = none := by
  unfold trailerStep
  rw [if_neg h]

theorem availStep_val_empty (env : Env) (ca : Caches) (t : String) (ac : Nat)
    (h : ¬ ac < AVAILABILITY_LOOKUPS_PER_REQUEST) : (availStep env ca t ac).1 = "" := by
  unfold availStep
  rw [if_neg h]

theorem buildLoop_trailer_count (env : Env) (mt : String) (gids : List Nat)
    (lang tq : Option String) (psz : Nat) :
    ∀ (cs : List Cand) (tc ac ilen : Nat) (ca : Caches),
      countEv (buildLoop env mt gids lang tq psz cs tc ac ilen ca).2.1 Ev.trailerAttempt ≤
        TRAILER_LOOKUPS_PER_REQUEST - tc := by
  intro cs
  induction cs with
  | nil => intro tc ac ilen ca; simp [buildLoop, countEv_nil]
  | cons c rest ih =>
    intro tc ac ilen ca
    by_cases h1 : tnat c.id
    case neg =>
      simp only [buildLoop, h1, Bool.not_false, if_true]
      exact ih tc ac ilen ca
    case pos =>
      by_cases h2 : tstr (if mt = "movie" then c.title else c.name)
      case neg =>
        simp only [buildLoop, h1, Bool.not_true, Bool.false_eq_true, if_false, h2, if_true]
        exact ih tc ac ilen ca
      case pos =>
        simp only [buildLoop, h1, Bool.not_true, Bool.false_eq_true, if_false, h2]
        have hs1 := trailerStep_attempt_count env ca (c.id.getD 0) mt tc
        have hc1 := trailerStep_counter env ca (c.id.getD 0) mt tc
        rcases hS1 : trailerStep env ca (c.id.getD 0) mt tc with ⟨u1, e1, ca1, tc2⟩
        rw [hS1] at hs1 hc1
        dsimp only at hs1 hc1 ⊢
        have hs2 := availStep_no_trailer env ca1 ((if mt = "movie" then c.title else c.name).getD "") ac
        rcases hS2 : availStep env ca1 ((if mt = "movie" then c.title else c.name).getD "") ac with ⟨a2, e2, ca2, ac2⟩
        rw [hS2] at hs2
        dsimp only at hs2 ⊢
        have hr := ih tc2 ac2 (ilen + 1) ca2
        by_cases h4 : tc < TRAILER_LOOKUPS_PER_REQUEST
        · rw [if_pos h4] at hs1 hc1
          split_ifs with h3 <;> dsimp only <;> simp only [countEv_append, hs1, hs2] <;> omega
        · rw [if_neg h4] at hs1 hc1
          split_ifs with h3 <;> dsimp only <;> simp only [countEv_append, hs1, hs2] <;> omega

theorem buildLoop_avail_count (env : Env) (mt : String) (gids : List Nat)
    (lang tq : Option String) (psz : Nat) :
    ∀ (cs : List Cand) (tc ac ilen : Nat) (ca : Caches),
      countEv (buildLoop env mt gids lang tq psz cs tc ac ilen ca).2.1 Ev.availAttempt ≤
        AVAILABILITY_LOOKUPS_PER_REQUEST - ac := by
  intro cs
  induction cs with
  | nil => intro tc ac ilen ca; simp [buildLoop, countEv_nil]
  | cons c rest ih =>
    intro tc ac ilen ca
    by_cases h1 : tnat c.id
    case neg =>
      simp only [buildLoop, h1, Bool.not_false, if_true]
      exact ih tc ac ilen ca
    case pos =>
      by_cases h2 : tstr (if mt = "movie" then c.title else c.name)
      case neg =>
        simp only [buildLoop, h1, Bool.not_true, Bool.false_eq_true, if_false, h2, if_true]
        exact ih tc ac ilen ca
      case pos =>
        simp only [buildLoop, h1, Bool.not_true, Bool.false_eq_true, if_false, h2]
        have hs1 := (trailerStep_no_avail env ca (c.id.getD 0) mt tc).1
        rcases hS1 : trailerStep env ca (c.id.getD 0) mt tc with ⟨u1, e1, ca1, tc2⟩
        rw [hS1] at hs1
        dsimp only at hs1 ⊢
        have hs2 := availStep_attempt_count env ca1 ((if mt = "movie" then c.title else c.name).getD "") ac
        have hc2 := availStep_counter env ca1 ((if mt = "movie" then c.title else c.name).getD "") ac
        rcases hS2 : availStep env ca1 ((if mt = "movie" then c.title else c.name).getD "") ac with ⟨a2, e2, ca2, ac2⟩
        rw [hS2] at hs2 hc2
        dsimp only at hs2 hc2 ⊢
        have hr := ih tc2 ac2 (ilen + 1) ca2
        by_cases h4 : ac < AVAILABILITY_LOOKUPS_PER_REQUEST
        · rw [if_pos h4] at hs2 hc2
          split_ifs with h3 <;> dsimp only <;> simp only [countEv_append, hs1, hs2] <;> omega
        · rw [if_neg h4] at hs2 hc2
          split_ifs with h3 <;> dsimp only <;> simp only [countEv_append, hs1, hs2] <;> omega

theorem buildLoop_sleep_eq_avail (env : Env) (mt : String) (gids : List Nat)
    (lang tq : Option String) (psz : Nat) :
    ∀ (cs : List Cand) (tc ac ilen : Nat) (ca : Caches),
      countEv (buildLoop env mt gids lang tq psz cs tc ac ilen ca).2.1 Ev.sleep =
        countEv (buildLoop env mt gids lang tq psz cs tc ac ilen ca).2.1 Ev.availAttempt := by
  intro cs
  induction cs with
  | nil => intro tc ac ilen ca; simp [buildLoop, countEv_nil]
  | cons c rest ih =>
    intro tc ac ilen ca
    by_cases h1 : tnat c.id
    case neg =>
      simp only [buildLoop, h1, Bool.not_false, if_true]
      exact ih tc ac ilen ca
    case pos =>
      by_cases h2 : tstr (if mt = "movie" then c.title else c.name)
      case neg =>
        simp only [buildLoop, h1, Bool.not_true, Bool.false_eq_true, if_false, h2, if_true]
        exact ih tc ac ilen ca
      case pos =>
        simp only [buildLoop, h1, Bool.not_true, Bool.false_eq_true, if_false, h2]
        have ht1 := (trailerStep_no_avail env ca (c.id.getD 0) mt tc).1
        have ht2 := (trailerStep_no_avail env ca (c.id.getD 0) mt tc).2
        rcases hS1 : trailerStep env ca (c.id.getD 0) mt tc with ⟨u1, e1, ca1, tc2⟩
        rw [hS1] at ht1 ht2
        dsimp only at ht1 ht2 ⊢
        have ha1 := availStep_attempt_count env ca1 ((if mt = "movie" then c.title else c.name).getD "") ac
        have ha2 := availStep_sleep_count env ca1 ((if mt = "movie" then c.title else c.name).getD "") ac
        rcases hS2 : availStep env ca1 ((if mt = "movie" then c.title else c.name).getD "") ac with ⟨a2, e2, ca2, ac2⟩
        rw [hS2] at ha1 ha2
        dsimp only at ha1 ha2 ⊢
        have hr := ih tc2 ac2 (ilen + 1) ca2
        split_ifs with h3 <;> dsimp only <;>
          simp only [countEv_append, ht1, ht2, ha1, ha2] <;> omega

theorem length_filter_cons_le {α : Type} (p : α → Bool) (a : α) (l : List α) :
    (List.filter p (a :: l)).length ≤ (List.filter p l).length + 1 := by
  simp only [List.filter_cons]
  split
  · simp
  · simp

theorem buildLoop_trailer_filter (env : Env) (mt : String) (gids : List Nat)
    (lang tq : Option String) (psz : Nat) :
    ∀ (cs : List Cand) (tc ac ilen : Nat) (ca : Caches),
      ((buildLoop env mt gids lang tq psz cs tc ac ilen ca).1.filter
        fun it => it.trailer_url ≠ none).length ≤ TRAILER_LOOKUPS_PER_REQUEST - tc := by
  intro cs
  induction cs with
  | nil => intro tc ac ilen ca; simp [buildLoop]
  | cons c rest ih =>
    intro tc ac ilen ca
    by_cases h1 : tnat c.id
    case neg =>
      simp only [buildLoop, h1, Bool.not_false, if_true]
      exact ih tc ac ilen ca
    case pos =>
      by_cases h2 : tstr (if mt = "movie" then c.title else c.name)
      case neg =>
        simp only [buildLoop, h1, Bool.not_true, Bool.false_eq_true, if_false, h2, if_true]
        exact ih tc ac ilen ca
      case pos =>
        simp only [buildLoop, h1, Bool.not_true, Bool.false_eq_true, if_false, h2]
        have hv1 := trailerStep_val_none env ca (c.id.getD 0) mt tc
        have hc1 := trailerStep_counter env ca (c.id.getD 0) mt tc
        rcases hS1 : trailerStep env ca (c.id.getD 0) mt tc with ⟨u1, e1, ca1, tc2⟩
        rw [hS1] at hv1 hc1
        dsimp only at hv1 hc1 ⊢
        rcases hS2 : availStep env ca1 ((if mt = "movie" then c.title else c.name).getD "") ac with ⟨a2, e2, ca2, ac2⟩
        have hr := ih tc2 ac2 (ilen + 1) ca2
        by_cases h4 : tc < TRAILER_LOOKUPS_PER_REQUEST
        · rw [if_pos h4] at hc1
          by_cases h3 : ilen + 1 ≥ psz
          · rw [if_pos h3]
            dsimp only
            have hb := List.length_filter_le (fun it => decide (it.trailer_url ≠ none))
              [mkItem c mt gids lang tq ((if mt = "movie" then c.title else c.name).getD "") u1 a2]
            simp only [List.length_cons, List.length_nil] at hb
            simp only [TRAILER_LOOKUPS_PER_REQUEST] at h4 ⊢
            omega
          · rw [if_neg h3]
            dsimp only
            have hb := length_filter_cons_le (fun it => decide (it.trailer_url ≠ none))
              (mkItem c mt gids lang tq ((if mt = "movie" then c.title else c.name).getD "") u1 a2)
              ((buildLoop env mt gids lang tq psz rest tc2 ac2 (ilen + 1) ca2).1)
            simp only [TRAILER_LOOKUPS_PER_REQUEST] at h4 hr ⊢
            omega
        · rw [if_neg h4] at hc1
          have hu : u1 = none := hv1 h4
          subst hu
          have hpf : (decide ((mkItem c mt gids lang tq
              ((if mt = "movie" then c.title else c.name).getD "") none a2).trailer_url ≠ none))
              = false := by
            simp [mkItem]
          by_cases h3 : ilen + 1 ≥ psz
          · rw [if_pos h3]
            dsimp only
            rw [List.filter_cons, hpf]
            simp
          · rw [if_neg h3]
            dsimp only
            rw [List.filter_cons, hpf]
            simp only [Bool.false_eq_true, if_false]
            simp only [TRAILER_LOOKUPS_PER_REQUEST] at hr ⊢
            omega

theorem buildLoop_avail_filter (env : Env) (mt : String) (gids : List Nat)
    (lang tq : Option String) (psz : Nat) :
    ∀ (cs : List Cand) (tc ac ilen : Nat) (ca : Caches),
      ((buildLoop env mt gids lang tq psz cs tc ac ilen ca).1.filter
        fun it => it.available_on ≠ "").length ≤ AVAILABILITY_LOOKUPS_PER_REQUEST - ac := by
  intro cs
  induction cs with
  | nil => intro tc ac ilen ca; simp [buildLoop]
  | cons c rest ih =>
    intro tc ac ilen ca
    by_cases h1 : tnat c.id
    case neg =>
      simp only [buildLoop, h1, Bool.not_false, if_true]
      exact ih tc ac ilen ca
    case pos =>
      by_cases h2 : tstr (if mt = "movie" then c.title else c.name)
      case neg =>
        simp only [buildLoop, h1, Bool.not_true, Bool.false_eq_true, if_false, h2, if_true]
        exact ih tc ac ilen ca
      case pos =>
        simp only [buildLoop, h1, Bool.not_true, Bool.false_eq_true, if_false, h2]
        rcases hS1 : trailerStep env ca (c.id.getD 0) mt tc with ⟨u1, e1, ca1, tc2⟩
        dsimp only
        have hv2 := availStep_val_empty env ca1 ((if mt = "movie" then c.title else c.name).getD "") ac
        have hc2 := availStep_counter env ca1 ((if mt = "movie" then c.title else c.name).getD "") ac
        rcases hS2 : availStep env ca1 ((if mt = "movie" then c.title else c.name).getD "") ac with ⟨a2, e2, ca2, ac2⟩
        rw [hS2] at hv2 hc2
        dsimp only at hv2 hc2 ⊢
        have hr := ih tc2 ac2 (ilen + 1) ca2
        by_cases h4 : ac < AVAILABILITY_LOOKUPS_PER_REQUEST
        · rw [if_pos h4] at hc2
          by_cases h3 : ilen + 1 ≥ psz
          · rw [if_pos h3]
            dsimp only
            have hb := List.length_filter_le (fun it => decide (it.available_on ≠ ""))
              [mkItem c mt gids lang tq ((if mt = "movie" then c.title else c.name).getD "") u1 a2]
            simp only [List.length_cons, List.length_nil] at hb
            simp only [AVAILABILITY_LOOKUPS_PER_REQUEST] at h4 ⊢
            omega
          · rw [if_neg h3]
            dsimp only
            have hb := length_filter_cons_le (fun it => decide (it.available_on ≠ ""))
              (mkItem c mt gids lang tq ((if mt = "movie" then c.title else c.name).getD "") u1 a2)
              ((buildLoop env mt gids lang tq psz rest tc2 ac2 (ilen + 1) ca2).1)
            simp only [AVAILABILITY_LOOKUPS_PER_REQUEST] at h4 hr ⊢
            omega
        · rw [if_neg h4] at hc2
          have hu : a2 = "" := hv2 h4
          subst hu
          have hpf : (decide ((mkItem c mt gids lang tq
              ((if mt = "movie" then c.title else c.name).getD "") u1 "").available_on ≠ ""))
              = false := by
            simp [mkItem]
          by_cases h3 : ilen + 1 ≥ psz
          · rw [if_pos h3]
            dsimp only
            rw [List.filter_cons, hpf]
            simp
          · rw [if_neg h3]
            dsimp only
            rw [List.filter_cons, hpf]
            simp only [Bool.false_eq_true, if_false]
            simp only [AVAILABILITY_LOOKUPS_PER_REQUEST] at hr ⊢
            omega

theorem buildLoop_evs (env : Env) (mt : String) (gids : List Nat)
    (lang tq : Option String) (psz : Nat) :
    ∀ (cs : List Cand) (tc ac ilen : Nat) (ca : Caches),
      ∀ e ∈ (buildLoop env mt gids lang tq psz cs tc ac ilen ca).2.1, isEnrichEv e = true := by
  intro cs
  induction cs with
  | nil => intro tc ac ilen ca; simp [buildLoop]
  | cons c rest ih =>
    intro tc ac ilen ca
    by_cases h1 : tnat c.id
    case neg =>
      simp only [buildLoop, h1, Bool.not_false, if_true]
      exact ih tc ac ilen ca
    case pos =>
      by_cases h2 : tstr (if mt = "movie" then c.title else c.name)
      case neg =>
        simp only [buildLoop, h1, Bool.not_true, Bool.false_eq_true, if_false, h2, if_true]
        exact ih tc ac ilen ca
      case pos =>
        simp only [buildLoop, h1, Bool.not_true, Bool.false_eq_true, if_false, h2]
        have he1 := trailerStep_evs env ca (c.id.getD 0) mt tc
        rcases hS1 : trailerStep env ca (c.id.getD 0) mt tc with ⟨u1, e1, ca1, tc2⟩
        rw [hS1] at he1
        dsimp only at he1 ⊢
        have he2 := availStep_evs env ca1 ((if mt = "movie" then c.title else c.name).getD "") ac
        rcases hS2 : availStep env ca1 ((if mt = "movie" then c.title else c.name).getD "") ac with ⟨a2, e2, ca2, ac2⟩
        rw [hS2] at he2
        dsimp only at he2 ⊢
        have hr := ih tc2 ac2 (ilen + 1) ca2
        have hone : ∀ e ∈ e1 ++ e2, isEnrichEv e = true := by
          intro e he
          rcases List.mem_append.mp he with h | h
          · rcases he1 e h with rfl | rfl <;> rfl
          · rcases he2 e h with rfl | rfl | rfl | rfl <;> rfl
        by_cases h3 : ilen + 1 ≥ psz
        · rw [if_pos h3]
          dsimp only
          exact hone
        · rw [if_neg h3]
          dsimp only
          intro e he
          rcases List.mem_append.mp he with h | h
          · exact hone e h
          · exact hr e h

theorem buildLoop_score_map (env : Env) (mt : String) (gids : List Nat)
    (lang tq : Option String) (psz : Nat) :
    ∀ (cs : List Cand) (tc ac ilen : Nat) (ca : Caches),
      (buildLoop env mt gids lang tq psz cs tc ac ilen ca).1.map Item.score =
        (keptCands mt psz cs ilen).map
          (fun c => score_100 c gids lang (if tstr tq then 6 / 100 else 0)) := by
  intro cs
  induction cs with
  | nil => intro tc ac ilen ca; simp [buildLoop, keptCands]
  | cons c rest ih =>
    intro tc ac ilen ca
    by_cases h1 : tnat c.id
    case neg =>
      simp only [buildLoop, keptCands, h1, Bool.not_false, if_true]
      exact ih tc ac ilen ca
    case pos =>
      by_cases h2 : tstr (if mt = "movie" then c.title else c.name)
      case neg =>
        simp only [buildLoop, keptCands, h1, Bool.not_true, Bool.false_eq_true, if_false, h2,
          if_true]
        exact ih tc ac ilen ca
      case pos =>
        simp only [buildLoop, keptCands, h1, Bool.not_true, Bool.false_eq_true, if_false, h2]
        rcases hS1 : trailerStep env ca (c.id.getD 0) mt tc with ⟨u1, e1, ca1, tc2⟩
        dsimp only
        rcases hS2 : availStep env ca1 ((if mt = "movie" then c.title else c.name).getD "") ac with ⟨a2, e2, ca2, ac2⟩
        dsimp only
        by_cases h3 : ilen + 1 ≥ psz
        · rw [if_pos h3, if_pos h3]
          rfl
        · rw [if_neg h3, if_neg h3]
          dsimp only
          simp only [List.map_cons]
          rw [ih tc2 ac2 (ilen + 1) ca2]
          rfl

theorem personRoute_evs (env : Env) (ut ct : String) (lang pn prr : Option String)
    (c : List Cand) (t : List Ev)
    (h : personRoute env ut ct lang pn prr = Except.ok (c, t)) :
    ∀ e ∈ t, e = Ev.personSearch ∨ e = Ev.personCredits := by
  unfold personRoute at h
  simp only [bind, Except.bind] at h
  split at h
  · cases h
  · split at h
    · cases h
      simp
    · split at h
      · cases h
      · split at h
        · cases h
        · cases h
          intro e he
          rcases List.mem_cons.mp he with rfl | he2
          · exact Or.inl rfl
          · rcases List.mem_singleton.mp he2 with rfl
            exact Or.inr rfl

theorem titleRoute_evs (env : Env) (ct tq : String) (p : Nat)
    (c : List Cand) (mtOpt : Option String) (t : List Ev)
    (h : titleRoute env ct tq p = Except.ok (c, mtOpt, t)) : routeTrOk t := by
  unfold titleRoute at h
  simp only [bind, Except.bind] at h
  split at h
  · cases h
  · split at h
    · cases h
      intro e he
      rcases List.mem_singleton.mp he with rfl
      rfl
    · split at h
      · split at h
        · cases h
        · cases h
          intro e he
          rcases List.mem_cons.mp he with rfl | he2
          · rfl
          · rcases List.mem_singleton.mp he2 with rfl
            rfl
      · cases h
        intro e he
        rcases List.mem_singleton.mp he with rfl
        rfl

theorem kwLoop_evs (env : Env) (ts : List String) (ids : List (Option Nat)) (t : List Ev)
    (h : kwLoop env ts = Except.ok (ids, t)) : routeTrOk t := by
  induction ts generalizing ids t with
  | nil =>
    unfold kwLoop at h
    cases h
    intro e he
    cases he
  | cons s ss ih =>
    unfold kwLoop at h
    simp only [bind, Except.bind] at h
    split at h
    · cases h
    · split at h
      · cases h
      · next hrec =>
        split at h <;> cases h <;>
        · intro e he
          rcases List.mem_cons.mp he with rfl | he2
          · rfl
          · exact ih _ _ hrec e he2

theorem keywordRoute_evs (env : Env) (m : Merged) (p : Nat)
    (c : List Cand) (mt : String) (t : List Ev)
    (h : keywordRoute env m p = Except.ok (c, mt, t)) : routeTrOk t := by
  unfold keywordRoute at h
  simp only [bind, Except.bind] at h
  split at h
  · cases h
  · next x hkw =>
    rcases x with ⟨ids, evk⟩
    have hevk : routeTrOk evk := kwLoop_evs env _ ids evk hkw
    split at h <;>
    · split at h
      · cases h
      · cases h
        intro e he
        rcases List.mem_append.mp he with h2 | h2
        · exact hevk e h2
        · rcases List.mem_singleton.mp h2 with rfl
          rfl

theorem defaultRoute_evs (env : Env) (m : Merged) (p : Nat)
    (c : List Cand) (mt : String) (t : List Ev)
    (h : defaultRoute env m p = Except.ok (c, mt, t)) : routeTrOk t := by
  unfold defaultRoute at h
  simp only [bind, Except.bind] at h
  split at h <;>
  · split at h
    · cases h
    · cases h
      intro e he
      rcases List.mem_singleton.mp he with rfl
      rfl

theorem fallbackRoute_evs (env : Env) (m : Merged) (ut : String) (p : Nat)
    (c : List Cand) (mt : String) (t : List Ev)
    (h : fallbackRoute env m ut p = Except.ok (c, mt, t)) : routeTrOk t := by
  unfold fallbackRoute at h
  simp only [bind, Except.bind] at h
  split at h <;>
  · split at h
    · cases h
    · cases h
      intro e he
      rcases List.mem_singleton.mp he with rfl
      rfl

theorem step1_trace_ok {env : Env} {ut ct : String} {lang pn prr : Option String}
    {x : List Cand × List Ev}
    (h : (if personActive pn ut then personRoute env ut ct lang pn prr
          else pure ([], [])) = Except.ok x) : routeTrOk x.2 := by
  split at h
  · rcases x with ⟨c1, t1⟩
    intro e he
    rcases personRoute_evs env ut ct lang pn prr c1 t1 h e he with rfl | rfl <;> rfl
  · cases h
    intro e he
    simp at he

theorem step_trace_ok {cond : Prop} [Decidable cond]
    {r : Except Unit (List Cand × String × List Ev)} {a : List Cand} {b : String}
    {x : List Cand × String × List Ev}
    (h : (if cond then r else pure (a, b, ([] : List Ev))) = Except.ok x)
    (hr : ∀ c mt t, r = Except.ok (c, mt, t) → routeTrOk t) : routeTrOk x.2.2 := by
  split at h
  · rcases x with ⟨c, mt, t⟩
    exact hr c mt t h
  · cases h
    intro e he
    simp at he

theorem step2_inner_evs (env : Env) (ct tq : String) (p : Nat) (media0 : String)
    (x : List Cand × String × List Ev)
    (h : (do
        let (c, mtOpt, tv) ← titleRoute env ct tq p
        pure (c, mtOpt.getD media0, tv)) = Except.ok x) : routeTrOk x.2.2 := by
  simp only [bind, Except.bind] at h
  split at h
  · cases h
  · next y hy =>
    rcases y with ⟨cy, mty, ty⟩
    cases h
    exact titleRoute_evs env ct tq p cy mty ty hy


theorem filter_unseen_nil (l : List Cand) : l.filter (unseenId []) = l := by
  induction l with
  | nil => rfl
  | cons c cs ih =>
    have hu : unseenId [] c = true := by
      unfold unseenId
      split <;> simp
    simp [List.filter_cons, hu, ih]

theorem unseen_cons (i : Nat) (seen : List Nat) (d : Cand) :
    unseenId (i :: seen) d = (unseenId seen d && decide (tid d ≠ some i)) := by
  unfold unseenId
  match h : tid d with
  | none => simp [h]
  | some j =>
    simp only [h, List.mem_cons, decide_not]
    by_cases hji : j = i
    · subst hji
      simp
    · by_cases hjs : j ∈ seen <;> simp [hji, hjs]

theorem dedupeGo_eq_keepFirst (l : List Cand) :
    ∀ seen : List Nat, dedupeGo seen l = keepFirstSpec (l.filter (unseenId seen)) := by
  induction l with
  | nil => intro seen; simp [dedupeGo, keepFirstSpec]
  | cons c cs ih =>
    intro seen
    match hid : c.id with
    | none =>
      have htid : tid c = none := by simp [tid, hid]
      have hu : unseenId seen c = true := by unfold unseenId; rw [htid]
      simp only [dedupeGo, hid, List.filter_cons, hu, if_pos]
      rw [keepFirstSpec, htid]
      exact ih seen
    | some i =>
      by_cases hi0 : i = 0
      · subst hi0
        have htid : tid c = none := by simp [tid, hid]
        have hu : unseenId seen c = true := by unfold unseenId; rw [htid]
        simp only [dedupeGo, hid, List.filter_cons, hu, if_pos]
        rw [if_pos (Or.inl trivial), keepFirstSpec, htid]
        exact ih seen
      · have htid : tid c = some i := by simp [tid, hid, hi0]
        by_cases hmem : i ∈ seen
        · have hu : unseenId seen c = false := by
            unfold unseenId; rw [htid]; simpa using hmem
          simp only [dedupeGo, hid, List.filter_cons, hu]
          rw [if_pos (Or.inr hmem)]
          simpa using ih seen
        · have hu : unseenId seen c = true := by
            unfold unseenId; rw [htid]; simpa using hmem
          simp only [dedupeGo, hid, List.filter_cons, hu, if_pos]
          have hguard : ¬ (i = 0 ∨ i ∈ seen) := by
            rintro (h | h)
            · exact hi0 h
            · exact hmem h
          rw [if_neg hguard, keepFirstSpec, htid]
          congr 1
          rw [ih (i :: seen), List.filter_filter]
          apply congrArg
          apply List.filter_congr
          intro d _
          rw [unseen_cons]
          exact Bool.and_comm _ _

theorem card_insert_sdiff (A S : Finset Nat) (i : Nat) (hi : i ∉ S) :
    ((insert i A) \ S).card = (A \ insert i S).card + 1 := by
  have he : (insert i A) \ S = insert i (A \ insert i S) := by
    ext a
    simp only [Finset.mem_sdiff, Finset.mem_insert]
    constructor
    · rintro ⟨rfl | ha, hs⟩
      · exact Or.inl rfl
      · by_cases hai : a = i
        · exact Or.inl hai
        · refine Or.inr ⟨ha, fun h => ?_⟩
          rcases h with h | h
          · exact hai h
          · exact hs h
    · rintro (rfl | ⟨ha, hs⟩)
      · exact ⟨Or.inl rfl, hi⟩
      · exact ⟨Or.inr ha, fun h => hs (Or.inr h)⟩
  rw [he, Finset.card_insert_of_not_mem]
  intro hmem
  exact (Finset.mem_sdiff.mp hmem).2 (Finset.mem_insert_self i _)

theorem dedupeGo_length (l : List Cand) :
    ∀ seen : List Nat,
      (dedupeGo seen l).length = ((l.filterMap tid).toFinset \ seen.toFinset).card := by
  induction l with
  | nil => intro seen; simp [dedupeGo]
  | cons c cs ih =>
    intro seen
    match hid : c.id with
    | none =>
      have htid : tid c = none := by simp [tid, hid]
      simp only [dedupeGo, hid, List.filterMap_cons, htid]
      exact ih seen
    | some i =>
      by_cases hi0 : i = 0
      · subst hi0
        have htid : tid c = none := by simp [tid, hid]
        simp only [dedupeGo, hid, List.filterMap_cons, htid]
        rw [if_pos (Or.inl trivial)]
        exact ih seen
      · have htid : tid c = some i := by simp [tid, hid, hi0]
        simp only [dedupeGo, hid, List.filterMap_cons, htid, List.toFinset_cons]
        by_cases hmem : i ∈ seen
        · rw [if_pos (Or.inr hmem), ih seen]
          congr 1
          ext a
          simp only [Finset.mem_sdiff, Finset.mem_insert]
          constructor
          · rintro ⟨ha, hs⟩
            exact ⟨Or.inr ha, hs⟩
          · rintro ⟨rfl | ha, hs⟩
            · exact absurd (List.mem_toFinset.mpr hmem) hs
            · exact ⟨ha, hs⟩
        · have hguard : ¬ (i = 0 ∨ i ∈ seen) := by
            rintro (h | h)
            · exact hi0 h
            · exact hmem h
          rw [if_neg hguard]
          simp only [List.length_cons, ih (i :: seen), List.toFinset_cons]
          rw [card_insert_sdiff _ _ _ (fun h => hmem (List.mem_toFinset.mp h))]

theorem dedupeGo_sublist (l : List Cand) : ∀ seen, List.Sublist (dedupeGo seen l) l := by
  induction l with
  | nil => intro seen; simp [dedupeGo]
  | cons c cs ih =>
    intro seen
    match hid : c.id with
    | none =>
      simp only [dedupeGo, hid]
      exact (ih seen).cons c
    | some i =>
      simp only [dedupeGo, hid]
      split
      · exact (ih seen).cons c
      · exact (ih (i :: seen)).cons₂ c

theorem personStep_evs (env : Env) (ut : String) (m : Merged)
    (x : List Cand × List Ev) (h : personStep env ut m = Except.ok x) :
    ∀ e ∈ x.2, e = Ev.personSearch ∨ e = Ev.personCredits := by
  unfold personStep at h
  split at h
  · rcases x with ⟨c1, t1⟩
    exact personRoute_evs env ut m.ct m.lang m.person_name m.person_role c1 t1 h
  · cases h
    intro e he
    simp at he

theorem titleStep_evs (env : Env) (m : Merged) (p : Nat) (c1 : List Cand) (b : String)
    (x : List Cand × String × List Ev) (h : titleStep env m p c1 b = Except.ok x) :
    routeTrOk x.2.2 := by
  unfold titleStep at h
  split at h
  · simp only [bind, Except.bind] at h
    split at h
    · cases h
    · next y hy =>
      rcases y with ⟨cy, mty, ty⟩
      cases h
      exact titleRoute_evs env m.ct (m.title_query.getD "") p cy mty ty hy
  · cases h
    intro e he
    simp at he

theorem keywordStep_evs (env : Env) (m : Merged) (p : Nat) (c2 : List Cand) (mt2 : String)
    (x : List Cand × String × List Ev) (h : keywordStep env m p c2 mt2 = Except.ok x) :
    routeTrOk x.2.2 := by
  unfold keywordStep at h
  split at h
  · rcases x with ⟨c, mt, t⟩
    exact keywordRoute_evs env m p c mt t h
  · cases h
    intro e he
    simp at he

theorem defaultStep_evs (env : Env) (m : Merged) (p : Nat) (c3 : List Cand) (mt3 : String)
    (x : List Cand × String × List Ev) (h : defaultStep env m p c3 mt3 = Except.ok x) :
    routeTrOk x.2.2 := by
  unfold defaultStep at h
  split at h
  · rcases x with ⟨c, mt, t⟩
    exact defaultRoute_evs env m p c mt t h
  · cases h
    intro e he
    simp at he

theorem fallbackStep_evs (env : Env) (m : Merged) (ut : String) (p : Nat)
    (c4 : List Cand) (mt4 : String)
    (x : List Cand × String × List Ev) (h : fallbackStep env m ut p c4 mt4 = Except.ok x) :
    routeTrOk x.2.2 := by
  unfold fallbackStep at h
  split at h
  · rcases x with ⟨c, mt, t⟩
    exact fallbackRoute_evs env m ut p c mt t h
  · cases h
    intro e he
    simp at he

theorem routeCandidates_evs (env : Env) (ut : String) (m : Merged) (p : Nat)
    (c : List Cand) (mt : String) (tr : List Ev)
    (h : routeCandidates env ut m p = Except.ok (c, mt, tr)) : routeTrOk tr := by
  unfold routeCandidates at h
  simp only [bind, Except.bind] at h
  rcases hx1 : personStep env ut m with e1 | x1 <;> rw [hx1] at h
  · simp at h
  rcases x1 with ⟨c1, t1⟩
  have ht1 := personStep_evs env ut m (c1, t1) hx1
  dsimp only at h
  rcases hx2 : titleStep env m p c1 (if m.ct = "movie" then "movie" else "tv")
      with e2 | x2 <;> rw [hx2] at h
  · simp at h
  rcases x2 with ⟨c2, mt2, t2⟩
  have ht2 := titleStep_evs env m p c1 _ (c2, mt2, t2) hx2
  dsimp only at h
  rcases hx3 : keywordStep env m p c2 mt2 with e3 | x3 <;> rw [hx3] at h
  · simp at h
  rcases x3 with ⟨c3, mt3, t3⟩
  have ht3 := keywordStep_evs env m p c2 mt2 (c3, mt3, t3) hx3
  dsimp only at h
  rcases hx4 : defaultStep env m p c3 mt3 with e4 | x4 <;> rw [hx4] at h
  · simp at h
  rcases x4 with ⟨c4, mt4, t4⟩
  have ht4 := defaultStep_evs env m p c3 mt3 (c4, mt4, t4) hx4
  dsimp only at h
  rcases hx5 : fallbackStep env m ut p c4 mt4 with e5 | x5 <;> rw [hx5] at h
  · simp at h
  rcases x5 with ⟨c5, mt5, t5⟩
  have ht5 := fallbackStep_evs env m ut p c4 mt4 (c5, mt5, t5) hx5
  dsimp only at h
  have htr : tr = t1 ++ t2 ++ t3 ++ t4 ++ t5 := by
    cases h
    rfl
  subst htr
  intro e he
  simp only [List.mem_append] at he
  rcases he with ((((he | he) | he) | he) | he)
  · rcases ht1 e he with rfl | rfl <;> rfl
  · exact ht2 e he
  · exact ht3 e he
  · exact ht4 e he
  · exact ht5 e he

theorem titleStep_skip (env : Env) (m : Merged) (p : Nat) (c1 : List Cand) (b : String)
    (hne : c1 ≠ []) : titleStep env m p c1 b = Except.ok (c1, b, []) := by
  unfold titleStep
  rw [if_neg]
  · rfl
  · simp [List.isEmpty_iff, hne]

theorem keywordStep_skip (env : Env) (m : Merged) (p : Nat) (c2 : List Cand) (mt2 : String)
    (hne : c2 ≠ []) : keywordStep env m p c2 mt2 = Except.ok (c2, mt2, []) := by
  unfold keywordStep
  rw [if_neg]
  · rfl
  · simp [List.isEmpty_iff, hne]

theorem defaultStep_skip (env : Env) (m : Merged) (p : Nat) (c3 : List Cand) (mt3 : String)
    (hne : c3 ≠ []) : defaultStep env m p c3 mt3 = Except.ok (c3, mt3, []) := by
  unfold defaultStep
  rw [if_neg]
  · rfl
  · simp [List.isEmpty_iff, hne]

theorem fallbackStep_skip (env : Env) (m : Merged) (ut : String) (p : Nat)
    (c4 : List Cand) (mt4 : String)
    (hne : c4 ≠ []) : fallbackStep env m ut p c4 mt4 = Except.ok (c4, mt4, []) := by
  unfold fallbackStep
  rw [if_neg]
  · rfl
  · simp [List.isEmpty_iff, hne]

theorem routeCandidates_of_person (env : Env) (ut : String) (m : Merged) (p : Nat)
    (c1 : List Cand) (t1 : List Ev)
    (hact : personActive m.person_name ut = true)
    (hpr : personRoute env ut m.ct m.lang m.person_name m.person_role = Except.ok (c1, t1))
    (hne : c1 ≠ []) :
    routeCandidates env ut m p =
      Except.ok (c1, (if m.ct = "movie" then "movie" else "tv"), t1) := by
  have h1 : personStep env ut m = Except.ok (c1, t1) := by
    unfold personStep
    rw [if_pos hact]
    exact hpr
  unfold routeCandidates
  simp only [bind, Except.bind]
  rw [h1]
  dsimp only
  rw [titleStep_skip env m p c1 _ hne]
  dsimp only
  rw [keywordStep_skip env m p c1 _ hne]
  dsimp only
  rw [defaultStep_skip env m p c1 _ hne]
  dsimp only
  rw [fallbackStep_skip env m ut p c1 _ hne]
  dsimp only
  simp only [List.append_nil]
  rfl

theorem recommend_ai_ok_elim (env : Env) (ca : Caches) (ut : String)
    (ctOv langOv : Option String) (page psz : Nat)
    (out : Resp × List Ev × Caches)
    (h : recommend_ai env ca ut ctOv langOv page psz = Except.ok out) :
    ∃ gOpt cands0 mtype rtr,
      env.gemini ut = Except.ok gOpt ∧
      routeCandidates env ut (merge_intent gOpt (parse_intent ut) ctOv langOv) (max page 1) =
        Except.ok (cands0, mtype, rtr) ∧
      out.1.items = sortByLe (fun a b => decide (b.score ≤ a.score))
        (buildItems env mtype (merge_intent gOpt (parse_intent ut) ctOv langOv).genre_ids
          (merge_intent gOpt (parse_intent ut) ctOv langOv).lang
          (merge_intent gOpt (parse_intent ut) ctOv langOv).title_query psz
          (dedupe_by_id cands0) ca).1 ∧
      out.2.1 = rtr ++ (buildItems env mtype (merge_intent gOpt (parse_intent ut) ctOv langOv).genre_ids
          (merge_intent gOpt (parse_intent ut) ctOv langOv).lang
          (merge_intent gOpt (parse_intent ut) ctOv langOv).title_query psz
          (dedupe_by_id cands0) ca).2.1 := by
  unfold recommend_ai at h
  simp only [bind, Except.bind] at h
  rcases hg : env.gemini ut with e | gOpt <;> rw [hg] at h
  · simp at h
  dsimp only at h
  rcases hr : routeCandidates env ut (merge_intent gOpt (parse_intent ut) ctOv langOv) (max page 1)
      with e | rc <;> rw [hr] at h
  · simp at h
  rcases rc with ⟨cands0, mtype, rtr⟩
  dsimp only at h
  cases h
  exact ⟨gOpt, cands0, mtype, rtr, rfl, hr, rfl, rfl⟩

theorem recommend_ai_ok_intro (env : Env) (ca : Caches) (ut : String)
    (ctOv langOv : Option String) (page psz : Nat)
    (gOpt : Option GHint) (rc : List Cand × String × List Ev)
    (hg : env.gemini ut = Except.ok gOpt)
    (hr : routeCandidates env ut (merge_intent gOpt (parse_intent ut) ctOv langOv) (max page 1) =
      Except.ok rc) :
    ∃ out, recommend_ai env ca ut ctOv langOv page psz = Except.ok out := by
  unfold recommend_ai
  simp only [bind, Except.bind]
  rw [hg]
  dsimp only
  rw [hr]
  rcases rc with ⟨cands0, mtype, rtr⟩
  dsimp only
  exact ⟨_, rfl⟩

theorem enrich_not_later (e : Ev) (h : isEnrichEv e = true) : isLaterRouteEv e = false := by
  cases e <;> first | rfl | exact absurd h (by decide)

theorem routeTr_counts {tr : List Ev} (h : routeTrOk tr) :
    countEv tr Ev.trailerAttempt = 0 ∧ countEv tr Ev.availAttempt = 0 ∧
    countEv tr Ev.sleep = 0 := by
  refine ⟨?_, ?_, ?_⟩ <;>
  · apply countEv_zero_of_all
    intro x hx hc
    subst hc
    exact absurd (h _ hx) (by decide)

/-- C1 (amended): failures of the enrichment lookups never escape
`recommend_ai` — whenever the intent-oracle call and the routing phase
complete without raising, `recommend_ai` returns a response, whatever the
trailer and availability providers do. -/
theorem recommend_ai_ok_of_primary_ok (env : Env) (ca : Caches) (ut : String)
    (ctOv langOv : Option String) (page psz : Nat)
    (gOpt : Option GHint) (rc : List Cand × String × List Ev)
    (hg : env.gemini ut = Except.ok gOpt)
    (hr : routeCandidates env ut (merge_intent gOpt (parse_intent ut) ctOv langOv) (max page 1) =
      Except.ok rc) :
    ∃ out, recommend_ai env ca ut ctOv langOv page psz = Except.ok out :=
  recommend_ai_ok_intro env ca ut ctOv langOv page psz gOpt rc hg hr

/-- C1 counterexample: with every primary provider raising, a plain request
makes `recommend_ai` itself raise — the failing discovery call is not
treated as zero candidates and no next strategy is tried. -/
theorem recommend_ai_raises_on_primary_failure :
    recommend_ai envBase {} "hindi comedy" none none 1 10 = Except.error () := by
  decide

/-- C1 witness. -/
theorem recommend_ai_ok_of_primary_ok_witness :
    ∃ out, recommend_ai envOkEmpty {} "abc" none none 1 10 = Except.ok out :=
  recommend_ai_ok_of_primary_ok envOkEmpty {} "abc" none none 1 10 none
    ([], "movie", [Ev.discoverMovieCall, Ev.searchMovieCall]) rfl (by decide)

/-- C2 (amended): the similarity bonus is keyed on the presence of a title
query, not on the route that produced a candidate — the returned scores are
exactly (up to the final sort) `score_100` mapped over the kept routed
candidates with bonus `0.06` for every candidate when the merged intent has a
truthy `title_query`, and bonus `0` for every candidate otherwise, whatever
route produced each candidate. -/
theorem similar_bonus_follows_title_query (env : Env) (ca : Caches) (ut : String)
    (ctOv langOv : Option String) (page psz : Nat) (gOpt : Option GHint)
    (cands0 : List Cand) (mtype : String) (rtr : List Ev)
    (hg : env.gemini ut = Except.ok gOpt)
    (hr : routeCandidates env ut (merge_intent gOpt (parse_intent ut) ctOv langOv)
      (max page 1) = Except.ok (cands0, mtype, rtr)) :
    List.Perm
      ((itemsOf (recommend_ai env ca ut ctOv langOv page psz)).map Item.score)
      ((keptCands mtype psz (dedupe_by_id cands0) 0).map fun c =>
        score_100 c (merge_intent gOpt (parse_intent ut) ctOv langOv).genre_ids
          (merge_intent gOpt (parse_intent ut) ctOv langOv).lang
          (if tstr (merge_intent gOpt (parse_intent ut) ctOv langOv).title_query
            then 6 / 100 else 0)) := by
  unfold recommend_ai
  simp only [bind, Except.bind]
  rw [hg]
  dsimp only
  rw [hr]
  dsimp only [itemsOf, pure, Except.pure]
  simp only [buildItems]
  rw [← buildLoop_score_map env mtype (merge_intent gOpt (parse_intent ut) ctOv langOv).genre_ids
    (merge_intent gOpt (parse_intent ut) ctOv langOv).lang
    (merge_intent gOpt (parse_intent ut) ctOv langOv).title_query psz
    (dedupe_by_id cands0) 0 0 0 ca]
  exact (sortByLe_perm (fun a b : Item => decide (b.score ≤ a.score)) _).map Item.score

/-- C2 counterexample: with a title query present but the multi search
returning nothing, the discovery route supplies the only candidate; the
`similar` endpoint is never called, yet the item is scored 6 — the bonus was
applied — although the same candidate scores 0 without the bonus. -/
theorem similar_bonus_without_similar_source :
    (itemsOf (recommend_ai envC2 {} "hindi comedy like inception" none none 1 10)).map
      Item.score = [6] ∧
    countEv (traceOf (recommend_ai envC2 {} "hindi comedy like inception" none none 1 10))
      Ev.similarCall = 0 ∧
    score_100 candA [35] (some "hi") 0 = 0 := by
  decide

/-- C2 witness. -/
theorem similar_bonus_follows_title_query_witness :
    List.Perm
      ((itemsOf (recommend_ai envC2 {} "hindi comedy like inception" none none 1 10)).map
        Item.score)
      ((keptCands "movie" 10 (dedupe_by_id [candA]) 0).map fun c =>
        score_100 c
          (merge_intent none (parse_intent "hindi comedy like inception") none none).genre_ids
          (merge_intent none (parse_intent "hindi comedy like inception") none none).lang
          (if tstr (merge_intent none (parse_intent "hindi comedy like inception")
            none none).title_query then 6 / 100 else 0)) :=
  similar_bonus_follows_title_query envC2 {} "hindi comedy like inception" none none 1 10
    none [candA] "movie" [Ev.multiSearch, Ev.discoverMovieCall] rfl (by decide)

/-- C3: router short-circuit — when the person route is active and yields at
least one candidate, the request makes no title multi-search, no similar
call, no keyword search, no discovery call and no fallback text-search call:
its whole trace is free of later-route events. -/
theorem person_route_short_circuit (env : Env) (ca : Caches) (ut : String)
    (ctOv langOv : Option String) (page psz : Nat) (gOpt : Option GHint)
    (c1 : List Cand) (t1 : List Ev)
    (hg : env.gemini ut = Except.ok gOpt)
    (hact : personActive (merge_intent gOpt (parse_intent ut) ctOv langOv).person_name ut = true)
    (hpr : personRoute env ut (merge_intent gOpt (parse_intent ut) ctOv langOv).ct
      (merge_intent gOpt (parse_intent ut) ctOv langOv).lang
      (merge_intent gOpt (parse_intent ut) ctOv langOv).person_name
      (merge_intent gOpt (parse_intent ut) ctOv langOv).person_role = Except.ok (c1, t1))
    (hne : c1 ≠ []) :
    ((traceOf (recommend_ai env ca ut ctOv langOv page psz)).all
      fun e => !isLaterRouteEv e) = true := by
  have hroute := routeCandidates_of_person env ut
    (merge_intent gOpt (parse_intent ut) ctOv langOv) (max page 1) c1 t1 hact hpr hne
  unfold recommend_ai
  simp only [bind, Except.bind]
  rw [hg]
  dsimp only
  rw [hroute]
  dsimp only
  simp only [traceOf]
  rw [List.all_eq_true]
  intro e he
  rcases List.mem_append.mp he with h | h
  · rcases personRoute_evs env ut _ _ _ _ c1 t1 hpr e h with rfl | rfl <;> rfl
  · have := buildLoop_evs env _ _ _ _ psz (dedupe_by_id c1) 0 0 0 ca e h
    rw [enrich_not_later e this]
    rfl

/-- C3 witness. -/
theorem person_route_short_circuit_witness :
    ((traceOf (recommend_ai envC3 {} "tom cruise movies" none none 1 10)).all
      fun e => !isLaterRouteEv e) = true :=
  person_route_short_circuit envC3 {} "tom cruise movies" none none 1 10 none
    [candM] [Ev.personSearch, Ev.personCredits] rfl (by decide) (by decide) (by decide)

/-- C4 witness. -/
theorem score_100_bounded_and_maximal_witness :
    (0 ≤ score_100 candW [28] (some "hi") 0 ∧ score_100 candW [28] (some "hi") 0 ≤ 100) ∧
    score_100 candMax [35] (some "hi") (6 / 100) = 100 :=
  ⟨score_100_bounded_and_maximal.1 candW [28] (some "hi") 0 (by decide) (by decide)
      (by decide) (Or.inl rfl),
   score_100_bounded_and_maximal.2 candMax [35] (some "hi") (6 / 100) (by decide)
      (by decide) (by decide) (by decide) (by decide) (by decide) rfl⟩

/-- C5: the seven year-extraction input/output pairs hold exactly as the
specification states them. -/
theorem extract_years_vectors :
    extract_years "between 2015 and 2020" = (some 2015, some 2020) ∧
    extract_years "after 2015" = (some 2016, none) ∧
    extract_years "since 2015" = (some 2015, none) ∧
    extract_years "before 2015" = (none, some 2014) ∧
    extract_years "until 2015" = (none, some 2015) ∧
    extract_years "movies from 2019" = (some 2019, some 2019) ∧
    extract_years "2015 and 2020 movies" = (none, none) := by
  decide

/-- C6 (amended): the deduplicator keeps, in input order, the first
occurrence of each truthy (non-zero, present) identifier — it equals the
keep-first specification reading, its output length is the number of
distinct truthy identifiers, and its output is a subsequence of the input;
candidates whose identifier is missing or 0 are dropped. -/
theorem dedupe_by_id_keeps_first (items : List Cand) :
    dedupe_by_id items = keepFirstSpec items ∧
    (dedupe_by_id items).length = (items.filterMap tid).toFinset.card ∧
    List.Sublist (dedupe_by_id items) items := by
  refine ⟨?_, ?_, dedupeGo_sublist items []⟩
  · rw [dedupe_by_id, dedupeGo_eq_keepFirst items [], filter_unseen_nil]
  · rw [dedupe_by_id, dedupeGo_length items []]
    simp

/-- C6 counterexample: a candidate with identifier 0 has an identifier and
is unique, yet the deduplicator drops it — the output is shorter than the
number of distinct identifiers in the input. -/
theorem dedupe_by_id_drops_zero_id :
    dedupe_by_id [{ id := some 0 }] = [] ∧
    (([{ id := some 0 }] : List Cand).filterMap Cand.id).toFinset.card = 1 := by
  decide

/-- C7: enrichment budgets — on every request, at most 4 trailer lookups and
at most 5 availability lookups are attempted, and at most 4 returned items
carry a trailer URL while at most 5 carry a non-empty availability string
(every item beyond the budgets keeps a null trailer and empty
availability). -/
theorem enrichment_budgets (env : Env) (ca : Caches) (ut : String)
    (ctOv langOv : Option String) (page psz : Nat) :
    countEv (traceOf (recommend_ai env ca ut ctOv langOv page psz)) Ev.trailerAttempt ≤
      TRAILER_LOOKUPS_PER_REQUEST ∧
    countEv (traceOf (recommend_ai env ca ut ctOv langOv page psz)) Ev.availAttempt ≤
      AVAILABILITY_LOOKUPS_PER_REQUEST ∧
    ((itemsOf (recommend_ai env ca ut ctOv langOv page psz)).filter
      fun it => it.trailer_url ≠ none).length ≤ TRAILER_LOOKUPS_PER_REQUEST ∧
    ((itemsOf (recommend_ai env ca ut ctOv langOv page psz)).filter
      fun it => it.available_on ≠ "").length ≤ AVAILABILITY_LOOKUPS_PER_REQUEST := by
  rcases hR : recommend_ai env ca ut ctOv langOv page psz with e | out
  · simp [traceOf, itemsOf, countEv]
  · rcases recommend_ai_ok_elim env ca ut ctOv langOv page psz out hR with
      ⟨gOpt, cands0, mtype, rtr, hg, hr, hitems, htr⟩
    simp only [buildItems] at hitems htr
    have hroute := routeTr_counts (routeCandidates_evs env ut _ (max page 1) cands0 mtype rtr hr)
    have htc := buildLoop_trailer_count env mtype
      (merge_intent gOpt (parse_intent ut) ctOv langOv).genre_ids
      (merge_intent gOpt (parse_intent ut) ctOv langOv).lang
      (merge_intent gOpt (parse_intent ut) ctOv langOv).title_query psz
      (dedupe_by_id cands0) 0 0 0 ca
    have hac := buildLoop_avail_count env mtype
      (merge_intent gOpt (parse_intent ut) ctOv langOv).genre_ids
      (merge_intent gOpt (parse_intent ut) ctOv langOv).lang
      (merge_intent gOpt (parse_intent ut) ctOv langOv).title_query psz
      (dedupe_by_id cands0) 0 0 0 ca
    have htf := buildLoop_trailer_filter env mtype
      (merge_intent gOpt (parse_intent ut) ctOv langOv).genre_ids
      (merge_intent gOpt (parse_intent ut) ctOv langOv).lang
      (merge_intent gOpt (parse_intent ut) ctOv langOv).title_query psz
      (dedupe_by_id cands0) 0 0 0 ca
    have haf := buildLoop_avail_filter env mtype
      (merge_intent gOpt (parse_intent ut) ctOv langOv).genre_ids
      (merge_intent gOpt (parse_intent ut) ctOv langOv).lang
      (merge_intent gOpt (parse_intent ut) ctOv langOv).title_query psz
      (dedupe_by_id cands0) 0 0 0 ca
    simp only [Nat.sub_zero] at htc hac htf haf
    refine ⟨?_, ?_, ?_, ?_⟩
    · simp only [traceOf, htr, countEv_append, hroute.1]
      omega
    · simp only [traceOf, htr, countEv_append, hroute.2.1]
      omega
    · simp only [itemsOf, hitems]
      have hperm := (sortByLe_perm (fun a b : Item => decide (b.score ≤ a.score))
        (buildLoop env mtype (merge_intent gOpt (parse_intent ut) ctOv langOv).genre_ids
          (merge_intent gOpt (parse_intent ut) ctOv langOv).lang
          (merge_intent gOpt (parse_intent ut) ctOv langOv).title_query psz
          (dedupe_by_id cands0) 0 0 0 ca).1).filter (fun it => decide (it.trailer_url ≠ none))
      rw [hperm.length_eq]
      exact htf
    · simp only [itemsOf, hitems]
      have hperm := (sortByLe_perm (fun a b : Item => decide (b.score ≤ a.score))
        (buildLoop env mtype (merge_intent gOpt (parse_intent ut) ctOv langOv).genre_ids
          (merge_intent gOpt (parse_intent ut) ctOv langOv).lang
          (merge_intent gOpt (parse_intent ut) ctOv langOv).title_query psz
          (dedupe_by_id cands0) 0 0 0 ca).1).filter (fun it => decide (it.available_on ≠ ""))
      rw [hperm.length_eq]
      exact haf

/-- C8 (amended): the fixed rate-limit delay is incurred after every
availability lookup attempt within budget, cached or not — on every request
the number of sleeps equals the number of availability attempts. -/
theorem sleep_after_every_availability_attempt (env : Env) (ca : Caches) (ut : String)
    (ctOv langOv : Option String) (page psz : Nat) :
    countEv (traceOf (recommend_ai env ca ut ctOv langOv page psz)) Ev.sleep =
      countEv (traceOf (recommend_ai env ca ut ctOv langOv page psz)) Ev.availAttempt := by
  rcases hR : recommend_ai env ca ut ctOv langOv page psz with e | out
  · rfl
  · rcases recommend_ai_ok_elim env ca ut ctOv langOv page psz out hR with
      ⟨gOpt, cands0, mtype, rtr, hg, hr, hitems, htr⟩
    simp only [buildItems] at htr
    have hroute := routeTr_counts (routeCandidates_evs env ut _ (max page 1) cands0 mtype rtr hr)
    have heq := buildLoop_sleep_eq_avail env mtype
      (merge_intent gOpt (parse_intent ut) ctOv langOv).genre_ids
      (merge_intent gOpt (parse_intent ut) ctOv langOv).lang
      (merge_intent gOpt (parse_intent ut) ctOv langOv).title_query psz
      (dedupe_by_id cands0) 0 0 0 ca
    simp only [traceOf, htr, countEv_append, hroute.2.1, hroute.2.2, heq]

/-- C8 counterexample: two candidates share one title, so the second
availability lookup is served from the (title, region) cache — no Watchmode
call happens for it — yet two sleeps occur for the two attempts while only
one uncached lookup (one title search, one sources fetch) was made. -/
theorem sleep_on_cache_hit :
    countEv (traceOf (recommend_ai envC8 {} "abc" none none 1 10)) Ev.sleep = 2 ∧
    countEv (traceOf (recommend_ai envC8 {} "abc" none none 1 10)) Ev.wmSearchCall = 1 ∧
    countEv (traceOf (recommend_ai envC8 {} "abc" none none 1 10)) Ev.wmSourcesCall = 1 := by
  decide

/-- C9 (amended): the resolved content type defaults to `"movie"` whenever
every source is unset, empty or exactly `"unknown"`, and recognised synonyms
of the first truthy source normalise to `"movie"` or `"series"`; other
values pass through after trim and lower-casing, so the router can receive a
value outside the two categories. -/
theorem resolve_ct_default_and_synonyms :
    (∀ ov gct hct : Option String,
      (ov = none ∨ ov = some "" ∨ ov = some "unknown") →
      (gct = none ∨ gct = some "" ∨ gct = some "unknown") →
      (hct = none ∨ hct = some "" ∨ hct = some "unknown") →
      resolve_ct ov gct hct = "movie") ∧
    (∀ (ov gct hct : Option String) (s : String),
      orS (orS ov gct) hct = some s →
      stripLower s ∈ (["movie", "movies"] : List String) →
      resolve_ct ov gct hct = "movie") ∧
    (∀ (ov gct hct : Option String) (s : String),
      orS (orS ov gct) hct = some s →
      stripLower s ∈ (["series", "tv", "show", "shows"] : List String) →
      resolve_ct ov gct hct = "series") := by
  refine ⟨?_, ?_, ?_⟩
  · intro ov gct hct h1 h2 h3
    rcases h1 with rfl | rfl | rfl <;> rcases h2 with rfl | rfl | rfl <;>
      rcases h3 with rfl | rfl | rfl <;> decide
  · intro ov gct hct s hchain hmem
    have hmem2 : stripLower s = "movie" ∨ stripLower s = "movies" := by
      simpa using hmem
    have hs_ne : s ≠ "" := by
      rintro rfl
      revert hmem2
      decide
    have hs_nu : s ≠ "unknown" := by
      rintro rfl
      revert hmem2
      decide
    simp only [resolve_ct]
    rw [hchain]
    have hgs : getS (some s) "unknown" = s := by
      simp [getS, tstr, hs_ne]
    rw [hgs, if_pos hs_nu]
    simp only [normalize_content_type]
    rw [if_pos hmem2]
  · intro ov gct hct s hchain hmem
    have hmem2 : stripLower s = "series" ∨ stripLower s = "tv" ∨ stripLower s = "show" ∨
        stripLower s = "shows" := by
      simpa using hmem
    have hs_ne : s ≠ "" := by
      rintro rfl
      revert hmem2
      decide
    have hs_nu : s ≠ "unknown" := by
      rintro rfl
      revert hmem2
      decide
    have hnm : ¬ (stripLower s = "movie" ∨ stripLower s = "movies") := by
      rintro (h | h) <;> rcases hmem2 with h2 | h2 | h2 | h2 <;> rw [h] at h2 <;> exact absurd h2 (by decide)
    simp only [resolve_ct]
    rw [hchain]
    have hgs : getS (some s) "unknown" = s := by
      simp [getS, tstr, hs_ne]
    rw [hgs, if_pos hs_nu]
    simp only [normalize_content_type]
    rw [if_neg hnm, if_pos hmem2]

/-- C9 counterexample: an unrecognised override passes through unchanged,
and a case or whitespace variant of the word unknown reaches the router
literally as `"unknown"` — the resolved content type is not always one of
the two concrete categories. -/
theorem resolve_ct_passthrough :
    resolve_ct (some " Unknown ") none none = "unknown" ∧
    resolve_ct (some "anime") none none = "anime" ∧
    ("unknown" ∉ (["movie", "series"] : List String)) ∧
    ("anime" ∉ (["movie", "series"] : List String)) := by
  decide

/-- C9 witness. -/
theorem resolve_ct_default_and_synonyms_witness :
    resolve_ct none none none = "movie" ∧
    resolve_ct (some " Movies ") none none = "movie" ∧
    resolve_ct none (some "TV") none = "series" :=
  ⟨resolve_ct_default_and_synonyms.1 none none none (Or.inl rfl) (Or.inl rfl) (Or.inl rfl),
   resolve_ct_default_and_synonyms.2.1 (some " Movies ") none none " Movies " (by decide)
     (by decide),
   resolve_ct_default_and_synonyms.2.2 none (some "TV") none "TV" (by decide) (by decide)⟩
